import Mathlib

/-!
Verification development for the entity-relationship consistency layer of a
catalog service (`src/services/pokemon.service.ts`).

The service manages Pokemon rows (entities), Type rows (labels, read-only
reference data) and PokemonType rows (entity-label assignments, with a
composite unique key `(pokemonId, typeId)`), stored in a relational store
accessed through a client (`prisma`).  We embed the store as an explicit
state value (`DB`) and each service operation as a function
`DB → ... → Except Err (result × DB)`; a transaction that throws rolls back,
which the embedding captures by returning `Except.error` without a new state
(`runOp` keeps the pre-state on error).

The source receives foreign-key references (`primaryTypeId`,
`secondaryTypeId`, query `typeId`) as strings and parses them with
`parseInt` at each use site; the embedding takes the already-parsed numeric
reference (validation/parsing is upstream of the core).  JavaScript
truthiness tests on these optional fields (`if (data.secondaryTypeId)`)
become `Option.isSome`, and truthiness on an optional string field
(`if (data.name)`) is the test that the field is present and non-empty.
-/

/-- A `Type` row: a classification label.  Read-only reference data. -/
structure TypeRow where
  id : Nat
  name : String
deriving DecidableEq, Repr

/-- A `Pokemon` row.  `height`, `weight`, `description`, `imageUrl` are
nullable columns (`Option`); the four base stats are required integers. -/
structure Pokemon where
  id : Nat
  name : String
  height : Option Int
  weight : Option Int
  description : Option String
  imageUrl : Option String
  baseHp : Int
  baseAttack : Int
  baseDefense : Int
  baseSpeed : Int
deriving DecidableEq, Repr

/-- A `PokemonType` row: the assignment joining one Pokemon and one Type.
The store enforces a composite unique key on `(pokemonId, typeId)`. -/
structure PokemonTypeRow where
  pokemonId : Nat
  typeId : Nat
deriving DecidableEq, Repr

/-- The relational store: the three tables plus the id the store will assign
to the next inserted Pokemon row. -/
structure DB where
  pokemons : List Pokemon
  types : List TypeRow
  pokemonTypes : List PokemonTypeRow
  nextId : Nat
deriving DecidableEq, Repr

/-- The distinct failure classes of the error-handling design: the four
typed kinds plus `internal` for unanticipated storage-layer errors. -/
inductive ErrKind where
  | notFound
  | conflict
  | invariantViolation
  | validationFailure
  | internal
deriving DecidableEq, Repr

/-- One constructor per throw site of the service, plus the two
storage-layer errors the service can hit without anticipating them
(unique-constraint violation on an insert/update, and delete of a record
that does not exist). -/
inductive Err where
  | nameExists (name : String)
  | primaryTypeNotFound
  | secondaryTypeNotFound
  | pokemonNotFound
  | typeNotFound
  | duplicateType
  | maxTypes
  | minTypes
  | uniqueConstraint
  | recordNotFound
deriving DecidableEq, Repr

/-- Classification of each error into the design's failure kinds.  The two
storage-layer errors are unanticipated and classify as `internal`. -/
def Err.kind : Err → ErrKind
  | .nameExists _ => .conflict
  | .primaryTypeNotFound => .notFound
  | .secondaryTypeNotFound => .notFound
  | .pokemonNotFound => .notFound
  | .typeNotFound => .notFound
  | .duplicateType => .conflict
  | .maxTypes => .invariantViolation
  | .minTypes => .invariantViolation
  | .uniqueConstraint => .internal
  | .recordNotFound => .internal

/-- The failure kind of a service result, `none` on success. -/
def errKind? {α : Type} : Except Err α → Option ErrKind
  | .error e => some e.kind
  | .ok _ => none

/-- Whether a service result is a success. -/
def isOk {α : Type} : Except Err α → Bool
  | .error _ => false
  | .ok _ => true

/- ## Store primitives (the prisma client calls) -/

/-- `prisma.pokemon.findUnique({ where: { name } })`. -/
def DB.findPokemonByName (db : DB) (name : String) : Option Pokemon :=
  db.pokemons.find? (fun p => p.name == name)

/-- `prisma.pokemon.findUnique({ where: { id } })`. -/
def DB.findPokemonById (db : DB) (id : Nat) : Option Pokemon :=
  db.pokemons.find? (fun p => p.id == id)

/-- `prisma.type.findUnique({ where: { id } })`. -/
def DB.findType (db : DB) (id : Nat) : Option TypeRow :=
  db.types.find? (fun t => t.id == id)

/-- `prisma.pokemonType.findUnique({ where: { pokemonId_typeId } })`. -/
def DB.findAssignment (db : DB) (pokemonId typeId : Nat) : Option PokemonTypeRow :=
  db.pokemonTypes.find? (fun a => a.pokemonId == pokemonId && a.typeId == typeId)

/-- `prisma.pokemonType.count({ where: { pokemonId } })`. -/
def DB.countTypes (db : DB) (pokemonId : Nat) : Nat :=
  db.pokemonTypes.countP (fun a => a.pokemonId == pokemonId)

/-- `tx.pokemonType.create`: the store enforces the composite unique key
`(pokemonId, typeId)` and rejects a duplicate pair. -/
def DB.insertAssignment (db : DB) (pokemonId typeId : Nat) :
    Except Err DB :=
  if (db.findAssignment pokemonId typeId).isSome then
    .error .uniqueConstraint
  else
    .ok { db with pokemonTypes := ⟨pokemonId, typeId⟩ :: db.pokemonTypes }

/-- `tx.pokemonType.deleteMany({ where: { pokemonId } })`. -/
def DB.deleteAssignmentsFor (db : DB) (pokemonId : Nat) : DB :=
  { db with pokemonTypes := db.pokemonTypes.filter (fun a => !(a.pokemonId == pokemonId)) }

/-- `prisma.pokemonType.delete({ where: { pokemonId_typeId } })`: deleting a
record that does not exist is a storage error. -/
def DB.deleteAssignment (db : DB) (pokemonId typeId : Nat) :
    Except Err DB :=
  if (db.findAssignment pokemonId typeId).isSome then
    .ok { db with pokemonTypes :=
      db.pokemonTypes.filter (fun a => !(a.pokemonId == pokemonId && a.typeId == typeId)) }
  else
    .error .recordNotFound

/-- `tx.pokemon.create`: the store assigns `nextId` and enforces the unique
constraint on `name`. -/
def DB.insertPokemon (db : DB) (mk : Nat → Pokemon) : Except Err (Pokemon × DB) :=
  if (db.findPokemonByName (mk db.nextId).name).isSome then
    .error .uniqueConstraint
  else
    let p := mk db.nextId
    .ok (p, { db with pokemons := p :: db.pokemons, nextId := db.nextId + 1 })

/-- `tx.pokemon.delete({ where: { id } })`. -/
def DB.deletePokemon (db : DB) (id : Nat) : Except Err DB :=
  if (db.findPokemonById id).isSome then
    .ok { db with pokemons := db.pokemons.filter (fun p => !(p.id == id)) }
  else
    .error .recordNotFound

/- ## Service inputs -/

/-- `CreatePokemonInput`: name and the four base stats are required;
`height`, `weight`, `description`, `imageUrl` are optional; the
primary-type reference is required and the secondary-type reference
optional (references already parsed to numbers, see the module comment). -/
structure CreatePokemonInput where
  name : String
  height : Option Int := none
  weight : Option Int := none
  description : Option String := none
  imageUrl : Option String := none
  baseHp : Int
  baseAttack : Int
  baseDefense : Int
  baseSpeed : Int
  primaryTypeId : Nat
  secondaryTypeId : Option Nat := none
deriving DecidableEq, Repr

/-- `UpdatePokemonInput`: every field optional; `none` is an absent key
(`undefined`), `some v` a supplied value. -/
structure UpdatePokemonInput where
  name : Option String := none
  height : Option Int := none
  weight : Option Int := none
  description : Option String := none
  imageUrl : Option String := none
  baseHp : Option Int := none
  baseAttack : Option Int := none
  baseDefense : Option Int := none
  baseSpeed : Option Int := none
  primaryTypeId : Option Nat := none
  secondaryTypeId : Option Nat := none
deriving DecidableEq, Repr

/-- `PokemonQuery`: page (default 1), limit (default 10), optional
case-insensitive name search and optional type-id filter. -/
structure PokemonQuery where
  page : Nat := 1
  limit : Nat := 10
  search : Option String := none
  typeId : Option Nat := none
deriving DecidableEq, Repr

/-- JavaScript `x || null` on an optional numeric column value: `undefined`
and the falsy number `0` both store SQL `NULL`. -/
def numOrNull : Option Int → Option Int
  | none => none
  | some v => if v = 0 then none else some v

/-- JavaScript `x || null` on an optional string column value: `undefined`
and the falsy empty string both store SQL `NULL`. -/
def strOrNull : Option String → Option String
  | none => none
  | some s => if s = "" then none else some s

/-- JavaScript truthiness of an optional string (`if (data.name)`):
present and non-empty. -/
def strTruthy : Option String → Bool
  | none => false
  | some s => !(s == "")

/- ## Query/Pagination module -/

/-- Case-insensitive substring match (`contains` with `mode:
"insensitive"`), via lowercased character lists. -/
def nameContains (hay needle : String) : Bool :=
  ((hay.toLower).toList).tails.any (fun t => (needle.toLower).toList.isPrefixOf t)

/-- The dynamically-built `where` object of `findMany`: an optional
case-insensitive substring condition on `name` and an optional condition
that some assignment of the row carries the given type id. -/
def matchesQuery (db : DB) (q : PokemonQuery) (p : Pokemon) : Bool :=
  (match q.search with
   | none => true
   | some s => nameContains p.name s) &&
  (match q.typeId with
   | none => true
   | some t => db.pokemonTypes.any (fun a => a.pokemonId == p.id && a.typeId == t))

/-- The pagination metadata block of `findMany`'s result. -/
structure Pagination where
  page : Nat
  limit : Nat
  total : Nat
  totalPages : Nat
  hasNext : Bool
  hasPrev : Bool
deriving DecidableEq, Repr

/-- `findMany`'s result: the page of rows plus metadata. -/
structure PageResult where
  data : List Pokemon
  pagination : Pagination
deriving DecidableEq, Repr

/-- `Math.ceil(total / limit)` on naturals (`limit > 0`). -/
def ceilDiv (total limit : Nat) : Nat := (total + limit - 1) / limit

namespace PokemonService

/-- `PokemonService.findMany`: filters by the query, orders by id
ascending, skips `(page-1)*limit` rows, takes `limit` rows, and counts the
total matching rows independently of the page slice. -/
def findMany (db : DB) (q : PokemonQuery) : PageResult :=
  let skip := (q.page - 1) * q.limit
  let matching := db.pokemons.filter (matchesQuery db q)
  let sorted := matching.mergeSort (fun a b => a.id ≤ b.id)
  let pokemons := (sorted.drop skip).take q.limit
  let total := matching.length
  { data := pokemons
    pagination :=
      { page := q.page
        limit := q.limit
        total := total
        totalPages := ceilDiv total q.limit
        hasNext := decide (q.page * q.limit < total)
        hasPrev := decide (q.page > 1) } }

/-- `PokemonService.findById`: the row with that id, hydrated;
`NotFound` if absent. -/
def findById (db : DB) (id : Nat) : Except Err Pokemon :=
  match db.findPokemonById id with
  | none => .error .pokemonNotFound
  | some p => .ok p

/-- `PokemonService.create`: pre-checks (name free, primary type exists,
secondary type exists when supplied), then one transaction inserting the
row, the primary assignment and, when supplied, the secondary assignment;
returns the hydrated row via `findById`. -/
def create (db : DB) (data : CreatePokemonInput) : Except Err (Pokemon × DB) := do
  if (db.findPokemonByName data.name).isSome then
    throw (.nameExists data.name)
  if (db.findType data.primaryTypeId).isNone then
    throw .primaryTypeNotFound
  match data.secondaryTypeId with
  | some s =>
    if (db.findType s).isNone then
      throw .secondaryTypeNotFound
  | none => pure ()
  let (newPokemon, db1) ← db.insertPokemon (fun id =>
    { id := id
      name := data.name
      height := numOrNull data.height
      weight := numOrNull data.weight
      description := strOrNull data.description
      imageUrl := strOrNull data.imageUrl
      baseHp := data.baseHp
      baseAttack := data.baseAttack
      baseDefense := data.baseDefense
      baseSpeed := data.baseSpeed })
  let db2 ← db1.insertAssignment newPokemon.id data.primaryTypeId
  let db3 ←
    match data.secondaryTypeId with
    | some s => db2.insertAssignment newPokemon.id s
    | none => pure db2
  let hydrated ← findById db3 newPokemon.id
  return (hydrated, db3)

/-- The partial scalar update object built by `update` (only keys present
in the input are written). -/
def applyUpdate (p : Pokemon) (data : UpdatePokemonInput) : Pokemon :=
  { p with
    name := data.name.getD p.name
    height := data.height.map some |>.getD p.height
    weight := data.weight.map some |>.getD p.weight
    description := data.description.map some |>.getD p.description
    imageUrl := data.imageUrl.map some |>.getD p.imageUrl
    baseHp := data.baseHp.getD p.baseHp
    baseAttack := data.baseAttack.getD p.baseAttack
    baseDefense := data.baseDefense.getD p.baseDefense
    baseSpeed := data.baseSpeed.getD p.baseSpeed }

/-- `tx.pokemon.update({ where: { id }, data: updateData })`: applies the
supplied scalar fields to the row with that id; the store keeps the unique
constraint on `name` (updating to a name a *different* row holds fails). -/
def DBupdatePokemon (db : DB) (id : Nat) (data : UpdatePokemonInput) :
    Except Err (Pokemon × DB) :=
  match db.findPokemonById id with
  | none => .error .recordNotFound
  | some p =>
    let p' := applyUpdate p data
    if db.pokemons.any (fun q => q.name == p'.name && !(q.id == id)) then
      .error .uniqueConstraint
    else
      .ok (p', { db with pokemons := db.pokemons.map (fun q => if q.id == id then applyUpdate q data else q) })

/-- The `$transaction` callback of `update`: apply the scalar updates to
the row, then — when either type reference is supplied — replace the whole
assignment set: delete all assignments of the row, then validate and insert
the supplied reference(s); returns the updated row. -/
def updateTx (db : DB) (id : Nat) (data : UpdatePokemonInput) :
    Except Err (Pokemon × DB) := do
  let (updatedPokemon, db1) ← DBupdatePokemon db id data
  let db4 ←
    if data.primaryTypeId.isSome || data.secondaryTypeId.isSome then do
      let db2 := db1.deleteAssignmentsFor id
      let db3 ←
        match data.primaryTypeId with
        | some t => do
          if (db2.findType t).isNone then
            throw .primaryTypeNotFound
          db2.insertAssignment id t
        | none => pure db2
      match data.secondaryTypeId with
      | some t => do
        if (db3.findType t).isNone then
          throw .secondaryTypeNotFound
        db3.insertAssignment id t
      | none => pure db3
    else
      pure db1
  return (updatedPokemon, db4)

/-- `PokemonService.update`: `findById` pre-check, duplicate-name pre-check
when a (truthy) name is supplied, then the transaction (`updateTx`);
returns the hydrated row via `findById`. -/
def update (db : DB) (id : Nat) (data : UpdatePokemonInput) :
    Except Err (Pokemon × DB) := do
  let _ ← findById db id
  if strTruthy data.name then
    match db.findPokemonByName (data.name.getD "") with
    | some existing =>
      if !(existing.id == id) then
        throw (.nameExists (data.name.getD ""))
    | none => pure ()
  let (updatedPokemon, db4) ← updateTx db id data
  let hydrated ← findById db4 updatedPokemon.id
  return (hydrated, db4)

/-- `PokemonService.delete`: `findById` pre-check, then one transaction
deleting all assignments of the row and then the row itself. -/
def deletePokemon (db : DB) (id : Nat) : Except Err DB := do
  let _ ← findById db id
  let db1 := db.deleteAssignmentsFor id
  db1.deletePokemon id

/-- `PokemonService.addType`: `findById` pre-check, type-existence check,
duplicate-pair check (`Conflict`), count check (`InvariantViolation` at 2),
then the single insert. -/
def addType (db : DB) (pokemonId typeId : Nat) :
    Except Err (PokemonTypeRow × DB) := do
  let _ ← findById db pokemonId
  if (db.findType typeId).isNone then
    throw .typeNotFound
  if (db.findAssignment pokemonId typeId).isSome then
    throw .duplicateType
  if db.countTypes pokemonId ≥ 2 then
    throw .maxTypes
  let db' ← db.insertAssignment pokemonId typeId
  return (⟨pokemonId, typeId⟩, db')

/-- `PokemonService.removeType`: `findById` pre-check, count check
(`InvariantViolation` at 1), then the single delete of the unique
`(pokemonId, typeId)` record. -/
def removeType (db : DB) (pokemonId typeId : Nat) : Except Err DB := do
  let _ ← findById db pokemonId
  if db.countTypes pokemonId ≤ 1 then
    throw .minTypes
  db.deleteAssignment pokemonId typeId

end PokemonService

/- ## Operation sequences -/

/-- One completed service call (the reads `findById`/`findMany` do not
change the store). -/
inductive Op where
  | create (data : CreatePokemonInput)
  | update (id : Nat) (data : UpdatePokemonInput)
  | deleteOp (id : Nat)
  | addType (pokemonId typeId : Nat)
  | removeType (pokemonId typeId : Nat)
deriving DecidableEq, Repr

/-- The store after one call: the new state on success, the unchanged
pre-state when the call failed (every failure aborts the enclosing
transaction, full rollback). -/
def runOp (db : DB) (op : Op) : DB :=
  match op with
  | .create data =>
    match PokemonService.create db data with
    | .ok (_, db') => db'
    | .error _ => db
  | .update id data =>
    match PokemonService.update db id data with
    | .ok (_, db') => db'
    | .error _ => db
  | .deleteOp id =>
    match PokemonService.deletePokemon db id with
    | .ok db' => db'
    | .error _ => db
  | .addType pokemonId typeId =>
    match PokemonService.addType db pokemonId typeId with
    | .ok (_, db') => db'
    | .error _ => db
  | .removeType pokemonId typeId =>
    match PokemonService.removeType db pokemonId typeId with
    | .ok db' => db'
    | .error _ => db

/-- The store after a sequence of completed calls. -/
def runOps (db : DB) (ops : List Op) : DB :=
  ops.foldl runOp db

/- ## Store well-formedness -/

/-- Live assignment count of entity `pid` (same count `countTypes` reads). -/
def DB.assignmentsFor (db : DB) (pid : Nat) : List PokemonTypeRow :=
  db.pokemonTypes.filter (fun a => a.pokemonId == pid)

/-- Well-formedness of the store: the storage layer's own constraints
(unique ids and names on `pokemon`, fresh `nextId`, the composite unique
key on `pokemonType`, referential integrity of both foreign keys) together
with the cardinality invariant (1–2 live assignments per entity). -/
def WF (db : DB) : Prop :=
  (db.pokemons.map Pokemon.id).Nodup ∧
  (db.pokemons.map Pokemon.name).Nodup ∧
  (∀ p ∈ db.pokemons, p.id < db.nextId) ∧
  db.pokemonTypes.Nodup ∧
  (∀ a ∈ db.pokemonTypes, ∃ p ∈ db.pokemons, p.id = a.pokemonId) ∧
  (∀ a ∈ db.pokemonTypes, ∃ t ∈ db.types, t.id = a.typeId) ∧
  (∀ p ∈ db.pokemons, 1 ≤ db.countTypes p.id ∧ db.countTypes p.id ≤ 2)

instance (db : DB) : Decidable (WF db) := by
  unfold WF; infer_instance

/-- A concrete seeded store for witnesses: three labels, no entities yet. -/
def seedDB : DB := ⟨[], [⟨1, "fire"⟩, ⟨2, "water"⟩, ⟨3, "grass"⟩], [], 1⟩

/-- A concrete entity row for witnesses. -/
def seedPokemon : Pokemon := ⟨1, "pika", none, none, none, none, 35, 55, 40, 90⟩

/-- A concrete store with one entity carrying two labels. -/
def seedDB2 : DB :=
  ⟨[seedPokemon], [⟨1, "fire"⟩, ⟨2, "water"⟩, ⟨3, "grass"⟩], [⟨1, 1⟩, ⟨1, 2⟩], 2⟩

/-- A concrete store with one entity carrying a single label. -/
def seedDB1 : DB :=
  ⟨[seedPokemon], [⟨1, "fire"⟩, ⟨2, "water"⟩, ⟨3, "grass"⟩], [⟨1, 1⟩], 2⟩

/-- A concrete create input for witnesses. -/
def seedCreate : CreatePokemonInput :=
  { name := "bulba", baseHp := 45, baseAttack := 49, baseDefense := 49,
    baseSpeed := 45, primaryTypeId := 3 }

/-- A concrete operation sequence for witnesses. -/
def seedOps : List Op :=
  [Op.create seedCreate, Op.addType 1 3, Op.removeType 1 3,
   Op.update 1 { primaryTypeId := some 2 }, Op.deleteOp 1]

/-- A concrete create input whose name collides with `seedPokemon`. -/
def seedCreateDup : CreatePokemonInput :=
  { name := "pika", baseHp := 1, baseAttack := 2, baseDefense := 3,
    baseSpeed := 4, primaryTypeId := 1 }

/-- A concrete create input whose primary and secondary references are equal. -/
def seedCreateEq : CreatePokemonInput :=
  { name := "eq", baseHp := 1, baseAttack := 2, baseDefense := 3,
    baseSpeed := 4, primaryTypeId := 1, secondaryTypeId := some 1 }

/-- A second concrete entity row for witnesses. -/
def seedPokemon2 : Pokemon := ⟨2, "bulba", none, none, none, none, 45, 49, 49, 45⟩

/-- A concrete store with two entities, one label each. -/
def seedDB3 : DB :=
  ⟨[seedPokemon, seedPokemon2], [⟨1, "fire"⟩, ⟨2, "water"⟩, ⟨3, "grass"⟩],
   [⟨1, 1⟩, ⟨2, 3⟩], 3⟩

/-- A concrete query for witnesses: page 4, page size 1. -/
def seedQuery : PokemonQuery := { page := 4, limit := 1 }

/-- A concrete create input with falsy optional attributes. -/
def seedCreateFalsy : CreatePokemonInput :=
  { name := "falsy", height := some 0, weight := some 0, description := some "",
    imageUrl := some "", baseHp := 1, baseAttack := 2, baseDefense := 3,
    baseSpeed := 4, primaryTypeId := 1 }

/-- The row `create` stores for `seedCreateFalsy` on `seedDB`. -/
def seedFalsyRow : Pokemon := ⟨1, "falsy", none, none, none, none, 1, 2, 3, 4⟩

/-- The store after creating `seedCreateFalsy` on `seedDB`. -/
def seedFalsyDB : DB :=
  ⟨[seedFalsyRow], [⟨1, "fire"⟩, ⟨2, "water"⟩, ⟨3, "grass"⟩], [⟨1, 1⟩], 2⟩

/- ## Lemmas about the store primitives -/

theorem findPokemonByName_eq_none {db : DB} {name : String}
    (h : db.findPokemonByName name = none) : ∀ p ∈ db.pokemons, p.name ≠ name := by
  intro p hp
  have := List.find?_eq_none.mp h p hp
  simpa using this

theorem findPokemonById_eq_some {db : DB} {id : Nat} {p : Pokemon}
    (h : db.findPokemonById id = some p) : p ∈ db.pokemons ∧ p.id = id := by
  refine ⟨List.mem_of_find?_eq_some h, ?_⟩
  have := List.find?_some h
  simpa using this

theorem findPokemonById_isSome {db : DB} {id : Nat} :
    (db.findPokemonById id).isSome ↔ ∃ p ∈ db.pokemons, p.id = id := by
  unfold DB.findPokemonById
  rw [List.find?_isSome]
  simp

theorem findType_isSome {db : DB} {tid : Nat} :
    (db.findType tid).isSome ↔ ∃ t ∈ db.types, t.id = tid := by
  unfold DB.findType
  rw [List.find?_isSome]
  simp

theorem findAssignment_isSome {db : DB} {pid tid : Nat} :
    (db.findAssignment pid tid).isSome ↔ (⟨pid, tid⟩ : PokemonTypeRow) ∈ db.pokemonTypes := by
  unfold DB.findAssignment
  rw [List.find?_isSome]
  constructor
  · rintro ⟨a, ha, hpa⟩
    simp only [Bool.and_eq_true, beq_iff_eq] at hpa
    obtain ⟨h1, h2⟩ := hpa
    cases a
    simp_all
  · intro h
    exact ⟨⟨pid, tid⟩, h, by simp⟩

theorem countTypes_eq_length_assignmentsFor (db : DB) (pid : Nat) :
    db.countTypes pid = (db.assignmentsFor pid).length := by
  unfold DB.countTypes DB.assignmentsFor
  rw [List.countP_eq_length_filter]

theorem insertAssignment_ok {db : DB} {pid tid : Nat} {db' : DB}
    (h : db.insertAssignment pid tid = .ok db') :
    (⟨pid, tid⟩ : PokemonTypeRow) ∉ db.pokemonTypes ∧
    db' = { db with pokemonTypes := ⟨pid, tid⟩ :: db.pokemonTypes } := by
  unfold DB.insertAssignment at h
  split at h
  · exact absurd h (by simp)
  · next hc =>
    refine ⟨fun hmem => hc ?_, by injection h with h1; exact h1.symm⟩
    exact findAssignment_isSome.mpr hmem

theorem insertPokemon_ok {db : DB} {mk : Nat → Pokemon} {p : Pokemon} {db' : DB}
    (h : db.insertPokemon mk = .ok (p, db')) :
    (∀ q ∈ db.pokemons, q.name ≠ (mk db.nextId).name) ∧ p = mk db.nextId ∧
    db' = { db with pokemons := mk db.nextId :: db.pokemons, nextId := db.nextId + 1 } := by
  unfold DB.insertPokemon at h
  split at h
  · exact absurd h (by simp)
  · next hc =>
    have hnone : db.findPokemonByName (mk db.nextId).name = none :=
      Option.not_isSome_iff_eq_none.mp (by simpa using hc)
    have := findPokemonByName_eq_none hnone
    injection h with h1
    injection h1 with hp hdb
    exact ⟨this, hp.symm, hdb.symm⟩

theorem findById_ok {db : DB} {id : Nat} {p : Pokemon}
    (h : PokemonService.findById db id = .ok p) : p ∈ db.pokemons ∧ p.id = id := by
  unfold PokemonService.findById at h
  split at h
  · exact absurd h (by simp)
  · next q hq =>
    injection h with h1
    subst h1
    exact findPokemonById_eq_some hq

theorem DBupdatePokemon_ok {db : DB} {id : Nat} {data : UpdatePokemonInput}
    {p : Pokemon} {db' : DB}
    (h : PokemonService.DBupdatePokemon db id data = .ok (p, db')) :
    ∃ p0, db.findPokemonById id = some p0 ∧ p = PokemonService.applyUpdate p0 data ∧
      (∀ q ∈ db.pokemons, q.id ≠ id → q.name ≠ p.name) ∧
      db' = { db with pokemons :=
        db.pokemons.map (fun q => if q.id == id then PokemonService.applyUpdate q data else q) } := by
  unfold PokemonService.DBupdatePokemon at h
  split at h
  · exact absurd h (by simp)
  · next p0 hp0 =>
    dsimp only at h
    split at h
    · exact absurd h (by simp)
    · next hany =>
      injection h with h1
      injection h1 with hp hdb
      refine ⟨p0, hp0, hp.symm, ?_, hdb.symm⟩
      intro q hq hqid hqname
      apply hany
      rw [List.any_eq_true]
      refine ⟨q, hq, ?_⟩
      subst hp
      simp [hqname, hqid]

/-- The id of a row is never changed by the scalar-update object. -/
theorem applyUpdate_id (p : Pokemon) (data : UpdatePokemonInput) :
    (PokemonService.applyUpdate p data).id = p.id := rfl

/-- A fresh id (`nextId`) has no assignments under referential integrity. -/
theorem countTypes_nextId_eq_zero {db : DB}
    (href : ∀ a ∈ db.pokemonTypes, ∃ p ∈ db.pokemons, p.id = a.pokemonId)
    (hlt : ∀ p ∈ db.pokemons, p.id < db.nextId) :
    db.countTypes db.nextId = 0 := by
  unfold DB.countTypes
  rw [List.countP_eq_zero]
  intro a ha
  obtain ⟨p, hp, hpid⟩ := href a ha
  have := hlt p hp
  simp only [beq_iff_eq]
  omega

/-- Counting after removing exactly one occurrence of an element (the
store's delete of a unique record). -/
theorem countP_filter_ne {α : Type} [DecidableEq α] {l : List α} {e : α}
    (hnd : l.Nodup) (he : e ∈ l) (q : α → Bool) :
    (l.filter (fun a => !(a == e))).countP q = l.countP q - (if q e then 1 else 0) := by
  have hperm : l.Perm (e :: l.erase e) := List.perm_cons_erase he
  have h1 : l.countP q = (l.erase e).countP q + (if q e then 1 else 0) := by
    rw [hperm.countP_eq]
    simp [List.countP_cons]
  have h2 : (l.filter (fun a => !(a == e))).countP q
      = ((e :: l.erase e).filter (fun a => !(a == e))).countP q :=
    (hperm.filter _).countP_eq _
  have h3 : ((e :: l.erase e).filter (fun a => !(a == e)))
      = (l.erase e).filter (fun a => !(a == e)) := by simp
  have h4 : (l.erase e).filter (fun a => !(a == e)) = l.erase e := by
    rw [List.filter_eq_self]
    intro a ha
    have : a ≠ e := ((List.Nodup.mem_erase_iff hnd).mp ha).1
    simp [this]
  rw [h2, h3, h4, h1]
  omega

theorem addType_preserves_WF {db : DB} {pid tid : Nat} {r : PokemonTypeRow} {db' : DB}
    (hwf : WF db) (h : PokemonService.addType db pid tid = .ok (r, db')) : WF db' := by
  obtain ⟨hids, hnames, hlt, hnodup, hrefP, hrefT, hcard⟩ := hwf
  unfold PokemonService.addType at h
  simp only [bind, Except.bind, pure, Except.pure] at h
  split at h
  · exact absurd h (by simp)
  next a ha =>
  split at h
  · exact absurd h (by simp)
  next htype =>
  split at h
  · exact absurd h (by simp)
  next hdup =>
  split at h
  · exact absurd h (by simp)
  next hcount =>
  split at h
  · exact absurd h (by simp)
  next db1 hins =>
  obtain ⟨hnotmem, hdb1⟩ := insertAssignment_ok hins
  injection h with h1
  injection h1 with hr hdb'
  subst hdb1
  subst hdb'
  obtain ⟨hamem, haid⟩ := findById_ok ha
  have htsome : (db.findType tid).isSome := by
    cases hft : db.findType tid
    · rw [hft] at htype; simp at htype
    · simp
  obtain ⟨t, htmem, htid⟩ := findType_isSome.mp htsome
  have hcount' : db.countTypes pid ≤ 1 := by omega
  refine ⟨by simpa using hids, by simpa using hnames, by simpa using hlt, ?_, ?_, ?_, ?_⟩
  · exact List.nodup_cons.mpr ⟨hnotmem, hnodup⟩
  · intro a' ha'
    rcases List.mem_cons.mp ha' with h' | h'
    · subst h'
      exact ⟨a, hamem, haid⟩
    · exact hrefP a' h'
  · intro a' ha'
    rcases List.mem_cons.mp ha' with h' | h'
    · subst h'
      exact ⟨t, htmem, htid⟩
    · exact hrefT a' h'
  · intro p hp
    simp only at hp
    have hold := hcard p hp
    simp only [DB.countTypes, List.countP_cons] at *
    by_cases hpp : pid = p.id
    · subst hpp
      simp only [beq_self_eq_true, if_pos]
      omega
    · have : ((⟨pid, tid⟩ : PokemonTypeRow).pokemonId == p.id) = false := by
        simpa using hpp
      rw [this]
      simpa using hold

/-- The delete predicate of `DB.deleteAssignment` tests disequality with the
one record `⟨pid, tid⟩`. -/
theorem deletePred_eq (pid tid : Nat) (a : PokemonTypeRow) :
    (!(a.pokemonId == pid && a.typeId == tid)) = (!(a == (⟨pid, tid⟩ : PokemonTypeRow))) := by
  cases a with
  | mk x y =>
    by_cases hx : x = pid <;> by_cases hy : y = tid <;>
      simp [hx, hy, show ((⟨x, y⟩ : PokemonTypeRow) == ⟨pid, tid⟩) = (decide (x = pid) && decide (y = tid)) from by
        simp [instBEqOfDecidableEq, PokemonTypeRow.mk.injEq]]

theorem removeType_preserves_WF {db : DB} {pid tid : Nat} {db' : DB}
    (hwf : WF db) (h : PokemonService.removeType db pid tid = .ok db') : WF db' := by
  obtain ⟨hids, hnames, hlt, hnodup, hrefP, hrefT, hcard⟩ := hwf
  unfold PokemonService.removeType at h
  simp only [bind, Except.bind, pure, Except.pure] at h
  split at h
  · exact absurd h (by simp)
  next a ha =>
  split at h
  · exact absurd h (by simp)
  next hcount =>
  unfold DB.deleteAssignment at h
  split at h
  case isFalse => exact absurd h (by simp)
  case isTrue hpair =>
  injection h with h1
  subst h1
  have hmem : (⟨pid, tid⟩ : PokemonTypeRow) ∈ db.pokemonTypes := findAssignment_isSome.mp hpair
  have hfiltereq : db.pokemonTypes.filter (fun a => !(a.pokemonId == pid && a.typeId == tid))
      = db.pokemonTypes.filter (fun a => !(a == (⟨pid, tid⟩ : PokemonTypeRow))) :=
    List.filter_congr (fun a _ => deletePred_eq pid tid a)
  refine ⟨by simpa using hids, by simpa using hnames, by simpa using hlt, ?_, ?_, ?_, ?_⟩
  · exact hnodup.filter _
  · intro a' ha'
    exact hrefP a' (List.mem_of_mem_filter ha')
  · intro a' ha'
    exact hrefT a' (List.mem_of_mem_filter ha')
  · intro p hp
    simp only at hp
    have hold := hcard p hp
    simp only [DB.countTypes] at *
    rw [hfiltereq, countP_filter_ne hnodup hmem]
    by_cases hpp : pid = p.id
    · subst hpp
      simp only [beq_self_eq_true, if_pos]
      omega
    · have : ((⟨pid, tid⟩ : PokemonTypeRow).pokemonId == p.id) = false := by simpa using hpp
      rw [this]
      simp only [Bool.false_eq_true, if_false]
      omega

/-- Removing one entity's assignments does not change another entity's count. -/
theorem countP_filter_other {l : List PokemonTypeRow} {id x : Nat} (hx : x ≠ id) :
    (l.filter (fun a => !(a.pokemonId == id))).countP (fun a => a.pokemonId == x)
      = l.countP (fun a => a.pokemonId == x) := by
  induction l with
  | nil => simp
  | cons a t ih =>
    by_cases ha : a.pokemonId = id
    · have hax : (a.pokemonId == x) = false := by
        simp [ha]
        omega
      simp [List.filter_cons, List.countP_cons, ha, hax, ih]
      omega
    · simp [List.filter_cons, List.countP_cons, ha, ih]

/-- After removing one entity's assignments, that entity's count is zero. -/
theorem countP_filter_self {l : List PokemonTypeRow} {id : Nat} :
    (l.filter (fun a => !(a.pokemonId == id))).countP (fun a => a.pokemonId == id) = 0 := by
  rw [List.countP_eq_zero]
  intro a ha
  have := List.of_mem_filter ha
  simpa using this

theorem delete_preserves_WF {db : DB} {id : Nat} {db' : DB}
    (hwf : WF db) (h : PokemonService.deletePokemon db id = .ok db') : WF db' := by
  obtain ⟨hids, hnames, hlt, hnodup, hrefP, hrefT, hcard⟩ := hwf
  unfold PokemonService.deletePokemon at h
  simp only [bind, Except.bind, pure, Except.pure] at h
  split at h
  · exact absurd h (by simp)
  next a ha =>
  unfold DB.deletePokemon DB.deleteAssignmentsFor at h
  dsimp only at h
  split at h
  case isFalse => exact absurd h (by simp)
  case isTrue hfound =>
  injection h with h1
  subst h1
  refine ⟨?_, ?_, ?_, ?_, ?_, ?_, ?_⟩
  · exact ((List.filter_sublist _).map Pokemon.id).nodup hids
  · exact ((List.filter_sublist _).map Pokemon.name).nodup hnames
  · intro p hp
    exact hlt p (List.mem_of_mem_filter hp)
  · exact hnodup.filter _
  · intro a' ha'
    have ha'mem := List.mem_of_mem_filter ha'
    have ha'keep := List.of_mem_filter ha'
    obtain ⟨p, hp, hpid⟩ := hrefP a' ha'mem
    refine ⟨p, List.mem_filter.mpr ⟨hp, ?_⟩, hpid⟩
    simp only [Bool.not_eq_eq_eq_not, Bool.not_true, beq_eq_false_iff_ne] at ha'keep ⊢
    omega
  · intro a' ha'
    exact hrefT a' (List.mem_of_mem_filter ha')
  · intro p hp
    have hpmem := List.mem_of_mem_filter hp
    have hpkeep := List.of_mem_filter hp
    have hpid : p.id ≠ id := by simpa using hpkeep
    have hold := hcard p hpmem
    simp only [DB.countTypes] at *
    rw [countP_filter_other hpid]
    exact hold

theorem nextId_not_mem_ids {db : DB} (hlt : ∀ p ∈ db.pokemons, p.id < db.nextId) :
    db.nextId ∉ db.pokemons.map Pokemon.id := by
  intro hmem
  obtain ⟨p, hp, hpid⟩ := List.mem_map.mp hmem
  have := hlt p hp
  omega

theorem create_preserves_WF {db : DB} {data : CreatePokemonInput} {r : Pokemon} {db' : DB}
    (hwf : WF db) (h : PokemonService.create db data = .ok (r, db')) : WF db' := by
  obtain ⟨hids, hnames, hlt, hnodup, hrefP, hrefT, hcard⟩ := hwf
  have hzero := countTypes_nextId_eq_zero hrefP hlt
  unfold PokemonService.create at h
  simp only [bind, Except.bind, pure, Except.pure] at h
  rcases hsec : data.secondaryTypeId with _ | s <;> rw [hsec] at h <;>
    simp only [bind, Except.bind, pure, Except.pure] at h
  -- secondary reference absent
  · split at h
    · exact absurd h (by simp)
    next hc1 =>
    split at h
    · exact absurd h (by simp)
    next hc2 =>
    split at h
    · exact absurd h (by simp)
    next P db1 hip =>
    split at h
    · exact absurd h (by simp)
    next db2 hia1 =>
    split at h
    · exact absurd h (by simp)
    next p2 hfid =>
    injection h with h1
    injection h1 with hr hdb'
    obtain ⟨Pnew, db1⟩ := db1
    obtain ⟨hnamefree, hP, hdb1⟩ := insertPokemon_ok hip
    subst hP
    subst hdb1
    obtain ⟨hnotmem, hdb2⟩ := insertAssignment_ok hia1
    subst hdb2
    subst hdb'
    have hptex : (db.findType data.primaryTypeId).isSome := by
      cases hft : db.findType data.primaryTypeId
      · rw [hft] at hc2; simp at hc2
      · simp
    obtain ⟨t, htmem, htid⟩ := findType_isSome.mp hptex
    refine ⟨?_, ?_, ?_, ?_, ?_, ?_, ?_⟩
    · exact List.nodup_cons.mpr ⟨nextId_not_mem_ids hlt, hids⟩
    · refine List.nodup_cons.mpr ⟨?_, hnames⟩
      intro hmem
      obtain ⟨q, hq, hqname⟩ := List.mem_map.mp hmem
      exact hnamefree q hq hqname
    · intro p hp
      rcases List.mem_cons.mp hp with h' | h'
      · subst h'; simp
      · have := hlt p h'
        simp only
        omega
    · exact List.nodup_cons.mpr ⟨by simpa using hnotmem, hnodup⟩
    · intro a' ha'
      rcases List.mem_cons.mp ha' with h' | h'
      · subst h'
        exact ⟨_, List.mem_cons_self _ _, rfl⟩
      · obtain ⟨p, hp, hpid⟩ := hrefP a' h'
        exact ⟨p, List.mem_cons_of_mem _ hp, hpid⟩
    · intro a' ha'
      rcases List.mem_cons.mp ha' with h' | h'
      · subst h'
        exact ⟨t, htmem, htid⟩
      · exact hrefT a' h'
    · intro p hp
      simp only [DB.countTypes, List.countP_cons] at *
      rcases List.mem_cons.mp hp with h' | h'
      · subst h'
        simp only [beq_self_eq_true, if_pos]
        omega
      · have hplt := hlt p h'
        have hne : (db.nextId == p.id) = false := by
          simp only [beq_eq_false_iff_ne]
          omega
        rw [hne]
        have := hcard p h'
        simpa using this
  -- secondary reference present
  · split at h
    · exact absurd h (by simp)
    next hc1 =>
    split at h
    · exact absurd h (by simp)
    next hc2 =>
    split at h
    · exact absurd h (by simp)
    next hc3 =>
    split at h
    · exact absurd h (by simp)
    next P db1 hip =>
    split at h
    · exact absurd h (by simp)
    next db2 hia1 =>
    split at h
    · exact absurd h (by simp)
    next db3 hia2 =>
    split at h
    · exact absurd h (by simp)
    next p2 hfid =>
    injection h with h1
    injection h1 with hr hdb'
    obtain ⟨Pnew, db1⟩ := db1
    obtain ⟨hnamefree, hP, hdb1⟩ := insertPokemon_ok hip
    subst hP
    subst hdb1
    obtain ⟨hnotmem1, hdb2⟩ := insertAssignment_ok hia1
    subst hdb2
    obtain ⟨hnotmem2, hdb3⟩ := insertAssignment_ok hia2
    subst hdb3
    subst hdb'
    have hptex : (db.findType data.primaryTypeId).isSome := by
      cases hft : db.findType data.primaryTypeId
      · rw [hft] at hc2; simp at hc2
      · simp
    obtain ⟨t, htmem, htid⟩ := findType_isSome.mp hptex
    have hstex : (db.findType s).isSome := by
      cases hft : db.findType s
      · rw [hft] at hc3; simp at hc3
      · simp
    obtain ⟨t2, ht2mem, ht2id⟩ := findType_isSome.mp hstex
    refine ⟨?_, ?_, ?_, ?_, ?_, ?_, ?_⟩
    · exact List.nodup_cons.mpr ⟨nextId_not_mem_ids hlt, hids⟩
    · refine List.nodup_cons.mpr ⟨?_, hnames⟩
      intro hmem
      obtain ⟨q, hq, hqname⟩ := List.mem_map.mp hmem
      exact hnamefree q hq hqname
    · intro p hp
      rcases List.mem_cons.mp hp with h' | h'
      · subst h'; simp
      · have := hlt p h'
        simp only
        omega
    · refine List.nodup_cons.mpr ⟨by simpa using hnotmem2, ?_⟩
      exact List.nodup_cons.mpr ⟨by simpa using hnotmem1, hnodup⟩
    · intro a' ha'
      rcases List.mem_cons.mp ha' with h' | h'
      · subst h'
        exact ⟨_, List.mem_cons_self _ _, rfl⟩
      · rcases List.mem_cons.mp h' with h'' | h''
        · subst h''
          exact ⟨_, List.mem_cons_self _ _, rfl⟩
        · obtain ⟨p, hp, hpid⟩ := hrefP a' h''
          exact ⟨p, List.mem_cons_of_mem _ hp, hpid⟩
    · intro a' ha'
      rcases List.mem_cons.mp ha' with h' | h'
      · subst h'
        exact ⟨t2, ht2mem, ht2id⟩
      · rcases List.mem_cons.mp h' with h'' | h''
        · subst h''
          exact ⟨t, htmem, htid⟩
        · exact hrefT a' h''
    · intro p hp
      simp only [DB.countTypes, List.countP_cons] at *
      rcases List.mem_cons.mp hp with h' | h'
      · subst h'
        simp only [beq_self_eq_true, if_pos]
        omega
      · have hplt := hlt p h'
        have hne : (db.nextId == p.id) = false := by
          simp only [beq_eq_false_iff_ne]
          omega
        rw [hne]
        have := hcard p h'
        simpa using this

theorem DBupdatePokemon_preserves_WF {db : DB} {id : Nat} {data : UpdatePokemonInput}
    {p : Pokemon} {db1 : DB}
    (hwf : WF db) (h : PokemonService.DBupdatePokemon db id data = .ok (p, db1)) :
    WF db1 ∧ db1.pokemonTypes = db.pokemonTypes ∧ db1.types = db.types ∧
    db1.nextId = db.nextId ∧ p ∈ db1.pokemons ∧ p.id = id := by
  obtain ⟨hids, hnames, hlt, hnodup, hrefP, hrefT, hcard⟩ := hwf
  obtain ⟨p0, hp0, hp, hcheck, hdb1⟩ := DBupdatePokemon_ok h
  obtain ⟨hp0mem, hp0id⟩ := findPokemonById_eq_some hp0
  subst hdb1
  subst hp
  have hgid : ∀ q : Pokemon,
      (if (q.id == id) = true then PokemonService.applyUpdate q data else q).id = q.id := by
    intro q; split <;> rfl
  have hmapid : (db.pokemons.map
      (fun q => if q.id == id then PokemonService.applyUpdate q data else q)).map Pokemon.id
      = db.pokemons.map Pokemon.id := by
    rw [List.map_map]
    congr 1
    funext q
    exact hgid q
  have hpmem : PokemonService.applyUpdate p0 data ∈ db.pokemons.map
      (fun q => if q.id == id then PokemonService.applyUpdate q data else q) := by
    have : (fun q => if q.id == id then PokemonService.applyUpdate q data else q) p0
        = PokemonService.applyUpdate p0 data := by
      simp [hp0id]
    rw [← this]
    exact List.mem_map_of_mem _ hp0mem
  have hidinj := List.inj_on_of_nodup_map hids
  have hnameinj := List.inj_on_of_nodup_map hnames
  refine ⟨⟨?_, ?_, ?_, ?_, ?_, ?_, ?_⟩, rfl, rfl, rfl, hpmem, ?_⟩
  · try dsimp only
    rw [hmapid]
    exact hids
  · try dsimp only
    rw [List.map_map]
    refine List.Nodup.map_on ?_ (hids.of_map Pokemon.id)
    intro x hx y hy hxy
    simp only [Function.comp] at hxy
    by_cases hxid : x.id = id <;> by_cases hyid : y.id = id
    · exact hidinj hx hy (hxid.trans hyid.symm)
    · have hx0 : x = p0 := hidinj hx hp0mem (by rw [hxid, hp0id])
      rw [if_pos (by simp [hxid]), if_neg (by simp [hyid])] at hxy
      subst hx0
      exact absurd hxy.symm (hcheck y hy hyid)
    · have hy0 : y = p0 := hidinj hy hp0mem (by rw [hyid, hp0id])
      rw [if_neg (by simp [hxid]), if_pos (by simp [hyid])] at hxy
      subst hy0
      exact absurd hxy (hcheck x hx hxid)
    · rw [if_neg (by simp [hxid]), if_neg (by simp [hyid])] at hxy
      exact hnameinj hx hy hxy
  · intro q hq
    try dsimp only at hq ⊢
    obtain ⟨q0, hq0, hq0eq⟩ := List.mem_map.mp hq
    subst hq0eq
    rw [hgid q0]
    exact hlt q0 hq0
  · exact hnodup
  · intro a ha
    try dsimp only at ha ⊢
    obtain ⟨q, hq, hqid⟩ := hrefP a ha
    refine ⟨_, List.mem_map_of_mem _ hq, ?_⟩
    rw [hgid q]
    exact hqid
  · intro a ha
    try dsimp only at ha ⊢
    exact hrefT a ha
  · intro q hq
    try dsimp only at hq ⊢
    obtain ⟨q0, hq0, hq0eq⟩ := List.mem_map.mp hq
    subst hq0eq
    simp only [DB.countTypes]
    try dsimp only
    rw [hgid q0]
    exact hcard q0 hq0
  · rw [applyUpdate_id]
    exact hp0id

/-- Replacing an entity's whole assignment set by one assignment keeps the
store well-formed. -/
theorem WF_replace_one {db1 : DB} {id t : Nat}
    (hwf1 : WF db1) (hrow : ∃ p ∈ db1.pokemons, p.id = id)
    (htype : ∃ ty ∈ db1.types, ty.id = t) :
    WF { db1 with pokemonTypes :=
      ⟨id, t⟩ :: db1.pokemonTypes.filter (fun a => !(a.pokemonId == id)) } := by
  obtain ⟨hids, hnames, hlt, hnodup, hrefP, hrefT, hcard⟩ := hwf1
  refine ⟨by simpa using hids, by simpa using hnames, by simpa using hlt, ?_, ?_, ?_, ?_⟩
  · refine List.nodup_cons.mpr ⟨?_, hnodup.filter _⟩
    intro hmem
    have := List.of_mem_filter hmem
    simp at this
  · intro a ha
    rcases List.mem_cons.mp ha with h' | h'
    · subst h'
      exact hrow
    · exact hrefP a (List.mem_of_mem_filter h')
  · intro a ha
    rcases List.mem_cons.mp ha with h' | h'
    · subst h'
      exact htype
    · exact hrefT a (List.mem_of_mem_filter h')
  · intro p hp
    try dsimp only at hp ⊢
    simp only [DB.countTypes, List.countP_cons]
    by_cases hpp : p.id = id
    · subst hpp
      rw [countP_filter_self]
      simp
    · have hne : ((⟨id, t⟩ : PokemonTypeRow).pokemonId == p.id) = false := by
        simp only [beq_eq_false_iff_ne]
        omega
      rw [hne, countP_filter_other hpp]
      have := hcard p hp
      simp only [DB.countTypes] at this
      simpa using this

/-- Replacing an entity's whole assignment set by two distinct assignments
keeps the store well-formed. -/
theorem WF_replace_two {db1 : DB} {id t s : Nat}
    (hwf1 : WF db1) (hrow : ∃ p ∈ db1.pokemons, p.id = id)
    (htype1 : ∃ ty ∈ db1.types, ty.id = t) (htype2 : ∃ ty ∈ db1.types, ty.id = s)
    (hts : s ≠ t) :
    WF { db1 with pokemonTypes :=
      ⟨id, s⟩ :: ⟨id, t⟩ :: db1.pokemonTypes.filter (fun a => !(a.pokemonId == id)) } := by
  obtain ⟨hids, hnames, hlt, hnodup, hrefP, hrefT, hcard⟩ := hwf1
  refine ⟨by simpa using hids, by simpa using hnames, by simpa using hlt, ?_, ?_, ?_, ?_⟩
  · refine List.nodup_cons.mpr ⟨?_, ?_⟩
    · intro hmem
      rcases List.mem_cons.mp hmem with h' | h'
      · exact hts (by injection h')
      · have := List.of_mem_filter h'
        simp at this
    · refine List.nodup_cons.mpr ⟨?_, hnodup.filter _⟩
      intro hmem
      have := List.of_mem_filter hmem
      simp at this
  · intro a ha
    rcases List.mem_cons.mp ha with h' | h'
    · subst h'
      exact hrow
    · rcases List.mem_cons.mp h' with h'' | h''
      · subst h''
        exact hrow
      · exact hrefP a (List.mem_of_mem_filter h'')
  · intro a ha
    rcases List.mem_cons.mp ha with h' | h'
    · subst h'
      exact htype2
    · rcases List.mem_cons.mp h' with h'' | h''
      · subst h''
        exact htype1
      · exact hrefT a (List.mem_of_mem_filter h'')
  · intro p hp
    try dsimp only at hp ⊢
    simp only [DB.countTypes, List.countP_cons]
    by_cases hpp : p.id = id
    · subst hpp
      rw [countP_filter_self]
      simp
    · have hne1 : ((⟨id, s⟩ : PokemonTypeRow).pokemonId == p.id) = false := by
        simp only [beq_eq_false_iff_ne]
        omega
      rw [hne1, countP_filter_other hpp]
      have := hcard p hp
      simp only [DB.countTypes] at this
      simpa using this

theorem updateTx_preserves_WF {db : DB} {id : Nat} {data : UpdatePokemonInput}
    {r : Pokemon} {db' : DB} (hwf : WF db)
    (h : PokemonService.updateTx db id data = .ok (r, db')) : WF db' := by
  unfold PokemonService.updateTx at h
  simp only [bind, Except.bind, pure, Except.pure] at h
  split at h
  · exact absurd h (by simp)
  next pr hupd =>
  obtain ⟨p1, db1⟩ := pr
  obtain ⟨hwf1, -, -, -, hpmem, hpid⟩ := DBupdatePokemon_preserves_WF hwf hupd
  have hrow : ∃ p ∈ db1.pokemons, p.id = id := ⟨p1, hpmem, hpid⟩
  split at h
  case isTrue hguard =>
    try dsimp only at h
    split at h
    next t heq =>
      split at h
      · exact absurd h (by simp)
      next hc2 =>
      split at h
      · exact absurd h (by simp)
      next db3 hins =>
      have hc2' : ¬((db1.findType t).isNone = true) := hc2
      have htex1 : (db1.findType t).isSome := by
        cases hft : db1.findType t
        · rw [hft] at hc2'; simp at hc2'
        · simp
      have htype1 := findType_isSome.mp htex1
      split at h
      next s2 heq2 =>
        split at h
        · exact absurd h (by simp)
        next hc3 =>
        split at h
        · exact absurd h (by simp)
        next db4 hins2 =>
        injection h with h1
        injection h1 with hr hdb'
        obtain ⟨hnm1, hdb3⟩ := insertAssignment_ok hins
        subst hdb3
        obtain ⟨hnm2, hdb4⟩ := insertAssignment_ok hins2
        subst hdb4
        subst hdb'
        have hc3' : ¬((db1.findType s2).isNone = true) := hc3
        have htex2 : (db1.findType s2).isSome := by
          cases hft : db1.findType s2
          · rw [hft] at hc3'; simp at hc3'
          · simp
        have htype2 := findType_isSome.mp htex2
        have hst : s2 ≠ t := by
          intro hcontra
          subst hcontra
          exact hnm2 (List.mem_cons_self _ _)
        exact WF_replace_two hwf1 hrow htype1 htype2 hst
      next heq2 =>
        injection h with h1
        injection h1 with hr hdb'
        obtain ⟨hnm1, hdb3⟩ := insertAssignment_ok hins
        subst hdb3
        subst hdb'
        exact WF_replace_one hwf1 hrow htype1
    next heq =>
      split at h
      next s2 heq2 =>
        split at h
        · exact absurd h (by simp)
        next hc3 =>
        split at h
        · exact absurd h (by simp)
        next db4 hins2 =>
        injection h with h1
        injection h1 with hr hdb'
        obtain ⟨hnm2, hdb4⟩ := insertAssignment_ok hins2
        subst hdb4
        subst hdb'
        have hc3' : ¬((db1.findType s2).isNone = true) := hc3
        have htex2 : (db1.findType s2).isSome := by
          cases hft : db1.findType s2
          · rw [hft] at hc3'; simp at hc3'
          · simp
        have htype2 := findType_isSome.mp htex2
        exact WF_replace_one hwf1 hrow htype2
      next heq2 =>
        rw [heq, heq2] at hguard
        simp at hguard
  case isFalse hguard =>
    injection h with h1
    injection h1 with hr hdb'
    subst hdb'
    exact hwf1

theorem update_preserves_WF {db : DB} {id : Nat} {data : UpdatePokemonInput}
    {r : Pokemon} {db' : DB} (hwf : WF db)
    (h : PokemonService.update db id data = .ok (r, db')) : WF db' := by
  unfold PokemonService.update at h
  simp only [bind, Except.bind, pure, Except.pure] at h
  split at h
  · exact absurd h (by simp)
  next a ha =>
  split at h
  case isTrue htr =>
    split at h
    next existing hex =>
      split at h
      · exact absurd h (by simp)
      next hown =>
        try dsimp only at h
        split at h
        · exact absurd h (by simp)
        next pr htx =>
        obtain ⟨p1, db4⟩ := pr
        have hwf4 := updateTx_preserves_WF hwf htx
        split at h
        · exact absurd h (by simp)
        next hyd hfid =>
        injection h with h1
        injection h1 with hr hdb'
        subst hdb'
        exact hwf4
    next hnone =>
      try dsimp only at h
      split at h
      · exact absurd h (by simp)
      next pr htx =>
      obtain ⟨p1, db4⟩ := pr
      have hwf4 := updateTx_preserves_WF hwf htx
      split at h
      · exact absurd h (by simp)
      next hyd hfid =>
      injection h with h1
      injection h1 with hr hdb'
      subst hdb'
      exact hwf4
  case isFalse htr =>
    try dsimp only at h
    split at h
    · exact absurd h (by simp)
    next pr htx =>
    obtain ⟨p1, db4⟩ := pr
    have hwf4 := updateTx_preserves_WF hwf htx
    split at h
    · exact absurd h (by simp)
    next hyd hfid =>
    injection h with h1
    injection h1 with hr hdb'
    subst hdb'
    exact hwf4

theorem runOp_preserves_WF (db : DB) (op : Op) (hwf : WF db) : WF (runOp db op) := by
  cases op with
  | create data =>
    rcases hc : PokemonService.create db data with e | pr
    · simp only [runOp, hc]
      exact hwf
    · obtain ⟨p, db2⟩ := pr
      simp only [runOp, hc]
      exact create_preserves_WF hwf hc
  | update id data =>
    rcases hc : PokemonService.update db id data with e | pr
    · simp only [runOp, hc]
      exact hwf
    · obtain ⟨p, db2⟩ := pr
      simp only [runOp, hc]
      exact update_preserves_WF hwf hc
  | deleteOp id =>
    rcases hc : PokemonService.deletePokemon db id with e | db2
    · simp only [runOp, hc]
      exact hwf
    · simp only [runOp, hc]
      exact delete_preserves_WF hwf hc
  | addType pid tid =>
    rcases hc : PokemonService.addType db pid tid with e | pr
    · simp only [runOp, hc]
      exact hwf
    · obtain ⟨p, db2⟩ := pr
      simp only [runOp, hc]
      exact addType_preserves_WF hwf hc
  | removeType pid tid =>
    rcases hc : PokemonService.removeType db pid tid with e | db2
    · simp only [runOp, hc]
      exact hwf
    · simp only [runOp, hc]
      exact removeType_preserves_WF hwf hc

theorem runOps_preserves_WF (db : DB) (ops : List Op) (hwf : WF db) :
    WF (runOps db ops) := by
  induction ops generalizing db with
  | nil => exact hwf
  | cons op rest ih =>
    simp only [runOps, List.foldl_cons]
    exact ih (runOp db op) (runOp_preserves_WF db op hwf)

/-- C1: starting from any well-formed store, after any sequence of
completed operations (create, update, addLabel, removeLabel, delete),
every live entity has exactly 1 or 2 live label assignments. -/
theorem C1_cardinality_invariant (db : DB) (ops : List Op) (hwf : WF db) :
    ∀ p ∈ (runOps db ops).pokemons,
      (runOps db ops).countTypes p.id = 1 ∨ (runOps db ops).countTypes p.id = 2 := by
  obtain ⟨-, -, -, -, -, -, hcard⟩ := runOps_preserves_WF db ops hwf
  intro p hp
  have := hcard p hp
  omega

/-- Witness for C1 at a concrete store and operation sequence. -/
theorem C1_cardinality_invariant_witness :
    WF seedDB ∧ ∀ p ∈ (runOps seedDB seedOps).pokemons,
      (runOps seedDB seedOps).countTypes p.id = 1 ∨
      (runOps seedDB seedOps).countTypes p.id = 2 :=
  ⟨by decide, C1_cardinality_invariant seedDB seedOps (by decide)⟩

/-- C2: creating with the name of an existing entity fails with `Conflict`
and leaves the store unchanged (no entity row, no assignment row). -/
theorem C2_create_duplicate_name (db : DB) (data : CreatePokemonInput)
    (h : ∃ p ∈ db.pokemons, p.name = data.name) :
    PokemonService.create db data = .error (.nameExists data.name) ∧
    errKind? (PokemonService.create db data) = some .conflict ∧
    runOp db (.create data) = db := by
  have hsome : (db.findPokemonByName data.name).isSome = true := by
    unfold DB.findPokemonByName
    rw [List.find?_isSome]
    obtain ⟨p, hp, hn⟩ := h
    exact ⟨p, hp, by simp [hn]⟩
  have hmain : PokemonService.create db data = .error (.nameExists data.name) := by
    unfold PokemonService.create
    simp [hsome, bind, Except.bind]
  exact ⟨hmain, by rw [hmain]; rfl, by simp [runOp, hmain]⟩

/-- Witness for C2 at a concrete store and input. -/
theorem C2_create_duplicate_name_witness :
    (∃ p ∈ seedDB2.pokemons, p.name = seedCreateDup.name) ∧
    (PokemonService.create seedDB2 seedCreateDup
        = .error (.nameExists seedCreateDup.name) ∧
      errKind? (PokemonService.create seedDB2 seedCreateDup) = some .conflict ∧
      runOp seedDB2 (.create seedCreateDup) = seedDB2) :=
  ⟨by decide, C2_create_duplicate_name seedDB2 seedCreateDup (by decide)⟩

/-- C3: a create whose primary and secondary label references are equal (and
resolve) is rejected — the second assignment insert violates the composite
unique key, the transaction rolls back, and nothing is created — rather
than succeeding with a single assignment. -/
theorem C3_create_equal_refs (db : DB) (data : CreatePokemonInput)
    (hsec : data.secondaryTypeId = some data.primaryTypeId)
    (htype : ∃ ty ∈ db.types, ty.id = data.primaryTypeId)
    (hname : ∀ p ∈ db.pokemons, p.name ≠ data.name)
    (hfresh : ∀ a ∈ db.pokemonTypes, a.pokemonId ≠ db.nextId) :
    PokemonService.create db data = .error .uniqueConstraint ∧
    errKind? (PokemonService.create db data) = some .internal ∧
    runOp db (.create data) = db := by
  have h1 : db.findPokemonByName data.name = none := by
    unfold DB.findPokemonByName
    rw [List.find?_eq_none]
    intro p hp
    simp [hname p hp]
  have h2 : (db.findType data.primaryTypeId).isNone = false := by
    have hs : (db.findType data.primaryTypeId).isSome := findType_isSome.mpr htype
    cases hft : db.findType data.primaryTypeId
    · rw [hft] at hs; simp at hs
    · simp
  have h3 : db.pokemonTypes.find?
      (fun a => a.pokemonId == db.nextId && a.typeId == data.primaryTypeId) = none := by
    rw [List.find?_eq_none]
    intro a ha
    have := hfresh a ha
    simp [this]
  have hmain : PokemonService.create db data = .error .uniqueConstraint := by
    unfold PokemonService.create DB.insertPokemon DB.insertAssignment DB.findAssignment
    rw [hsec]
    simp [h1, h2, h3, bind, Except.bind, pure, Except.pure, List.find?_cons]
  exact ⟨hmain, by rw [hmain]; rfl, by simp [runOp, hmain]⟩

/-- Witness for C3 at a concrete store and input. -/
theorem C3_create_equal_refs_witness :
    (seedCreateEq.secondaryTypeId = some seedCreateEq.primaryTypeId) ∧
    (∃ ty ∈ seedDB.types, ty.id = seedCreateEq.primaryTypeId) ∧
    (∀ p ∈ seedDB.pokemons, p.name ≠ seedCreateEq.name) ∧
    (∀ a ∈ seedDB.pokemonTypes, a.pokemonId ≠ seedDB.nextId) ∧
    (PokemonService.create seedDB seedCreateEq = .error .uniqueConstraint ∧
      errKind? (PokemonService.create seedDB seedCreateEq) = some .internal ∧
      runOp seedDB (.create seedCreateEq) = seedDB) :=
  ⟨by decide, by decide, by decide, by decide,
    C3_create_equal_refs seedDB seedCreateEq (by decide) (by decide) (by decide) (by decide)⟩

/-- On success, `create` returns exactly the inserted row: the store-assigned
id, the supplied name and stats, and the falsy-coerced optional columns. -/
theorem create_ok_row {db : DB} {data : CreatePokemonInput} {r : Pokemon} {db' : DB}
    (h : PokemonService.create db data = .ok (r, db')) :
    r = { id := db.nextId, name := data.name, height := numOrNull data.height,
          weight := numOrNull data.weight, description := strOrNull data.description,
          imageUrl := strOrNull data.imageUrl, baseHp := data.baseHp,
          baseAttack := data.baseAttack, baseDefense := data.baseDefense,
          baseSpeed := data.baseSpeed } := by
  unfold PokemonService.create at h
  simp only [bind, Except.bind, pure, Except.pure] at h
  rcases hsec : data.secondaryTypeId with _ | s <;> rw [hsec] at h <;>
    simp only [bind, Except.bind, pure, Except.pure] at h
  · split at h
    · exact absurd h (by simp)
    next hc1 =>
    split at h
    · exact absurd h (by simp)
    next hc2 =>
    split at h
    · exact absurd h (by simp)
    next P db1 hip =>
    obtain ⟨Pnew, db1⟩ := db1
    obtain ⟨hnamefree, hP, hdb1⟩ := insertPokemon_ok hip
    subst hP
    subst hdb1
    split at h
    · exact absurd h (by simp)
    next db2 hia1 =>
    obtain ⟨hnm, hdb2⟩ := insertAssignment_ok hia1
    subst hdb2
    split at h
    · exact absurd h (by simp)
    next p2 hfid =>
    simp only [PokemonService.findById, DB.findPokemonById] at hfid
    rw [List.find?_cons_of_pos _ (by simp)] at hfid
    simp only [Except.ok.injEq] at hfid
    injection h with h1
    injection h1 with hr hdb'
    rw [← hr, ← hfid]
  · split at h
    · exact absurd h (by simp)
    next hc1 =>
    split at h
    · exact absurd h (by simp)
    next hc2 =>
    split at h
    · exact absurd h (by simp)
    next hc3 =>
    split at h
    · exact absurd h (by simp)
    next P db1 hip =>
    obtain ⟨Pnew, db1⟩ := db1
    obtain ⟨hnamefree, hP, hdb1⟩ := insertPokemon_ok hip
    subst hP
    subst hdb1
    split at h
    · exact absurd h (by simp)
    next db2 hia1 =>
    obtain ⟨hnm1, hdb2⟩ := insertAssignment_ok hia1
    subst hdb2
    split at h
    · exact absurd h (by simp)
    next db3 hia2 =>
    obtain ⟨hnm2, hdb3⟩ := insertAssignment_ok hia2
    subst hdb3
    split at h
    · exact absurd h (by simp)
    next p2 hfid =>
    simp only [PokemonService.findById, DB.findPokemonById] at hfid
    rw [List.find?_cons_of_pos _ (by simp)] at hfid
    simp only [Except.ok.injEq] at hfid
    injection h with h1
    injection h1 with hr hdb'
    rw [← hr, ← hfid]

/-- C9: on a successful create, a supplied optional numeric attribute `0`
and a supplied optional empty-string attribute are stored as `NULL` (the
falsy values are coerced to `null` by the `|| null` defaulting). -/
theorem C9_create_falsy_optionals (db : DB) (data : CreatePokemonInput)
    (p : Pokemon) (db' : DB)
    (h : PokemonService.create db data = .ok (p, db')) :
    p.height = numOrNull data.height ∧ p.weight = numOrNull data.weight ∧
    p.description = strOrNull data.description ∧ p.imageUrl = strOrNull data.imageUrl ∧
    (data.height = some 0 → p.height = none) ∧
    (data.weight = some 0 → p.weight = none) ∧
    (data.description = some "" → p.description = none) ∧
    (data.imageUrl = some "" → p.imageUrl = none) := by
  have hrow := create_ok_row h
  subst hrow
  refine ⟨rfl, rfl, rfl, rfl, ?_, ?_, ?_, ?_⟩
  · intro hh; rw [hh]; rfl
  · intro hh; rw [hh]; rfl
  · intro hh; rw [hh]; simp [strOrNull]
  · intro hh; rw [hh]; simp [strOrNull]

/-- Witness for C9 at a concrete store and input. -/
theorem C9_create_falsy_optionals_witness :
    PokemonService.create seedDB seedCreateFalsy = .ok (seedFalsyRow, seedFalsyDB) ∧
    (seedFalsyRow.height = numOrNull seedCreateFalsy.height ∧
      seedFalsyRow.weight = numOrNull seedCreateFalsy.weight ∧
      seedFalsyRow.description = strOrNull seedCreateFalsy.description ∧
      seedFalsyRow.imageUrl = strOrNull seedCreateFalsy.imageUrl ∧
      (seedCreateFalsy.height = some 0 → seedFalsyRow.height = none) ∧
      (seedCreateFalsy.weight = some 0 → seedFalsyRow.weight = none) ∧
      (seedCreateFalsy.description = some "" → seedFalsyRow.description = none) ∧
      (seedCreateFalsy.imageUrl = some "" → seedFalsyRow.imageUrl = none)) :=
  ⟨rfl, C9_create_falsy_optionals seedDB seedCreateFalsy seedFalsyRow seedFalsyDB rfl⟩

/-- C6: `addType` fails with `NotFound` when the entity or the label does
not exist, with `Conflict` when the entity already carries the label, and
with `InvariantViolation` when the entity already carries 2 labels and the
label is not one of them. -/
theorem C6_addType_errors (db : DB) (pid tid : Nat) (hwf : WF db) :
    ((∀ p ∈ db.pokemons, p.id ≠ pid) →
      errKind? (PokemonService.addType db pid tid) = some .notFound) ∧
    ((∃ p ∈ db.pokemons, p.id = pid) → (∀ t ∈ db.types, t.id ≠ tid) →
      errKind? (PokemonService.addType db pid tid) = some .notFound) ∧
    ((∃ p ∈ db.pokemons, p.id = pid) →
      (⟨pid, tid⟩ : PokemonTypeRow) ∈ db.pokemonTypes →
      errKind? (PokemonService.addType db pid tid) = some .conflict) ∧
    ((∃ p ∈ db.pokemons, p.id = pid) → (∃ t ∈ db.types, t.id = tid) →
      (⟨pid, tid⟩ : PokemonTypeRow) ∉ db.pokemonTypes → db.countTypes pid = 2 →
      errKind? (PokemonService.addType db pid tid) = some .invariantViolation) := by
  obtain ⟨-, -, -, -, -, hrefT, -⟩ := hwf
  refine ⟨?_, ?_, ?_, ?_⟩
  · intro hno
    have hfb : db.findPokemonById pid = none := by
      unfold DB.findPokemonById
      rw [List.find?_eq_none]
      intro p hp
      simp [hno p hp]
    unfold PokemonService.addType PokemonService.findById
    simp [hfb, bind, Except.bind]
    rfl
  · intro hyes hno
    obtain ⟨p, hp, hpid⟩ := hyes
    cases hfb : db.findPokemonById pid with
    | none =>
      exact absurd (List.find?_eq_none.mp hfb p hp) (by simp [hpid])
    | some q =>
      have hft : db.findType tid = none := by
        unfold DB.findType
        rw [List.find?_eq_none]
        intro t ht
        simp [hno t ht]
      unfold PokemonService.addType PokemonService.findById
      simp [hfb, hft, bind, Except.bind]
      rfl
  · intro hyes hmem
    obtain ⟨p, hp, hpid⟩ := hyes
    cases hfb : db.findPokemonById pid with
    | none =>
      exact absurd (List.find?_eq_none.mp hfb p hp) (by simp [hpid])
    | some q =>
      have htex : (db.findType tid).isSome := by
        obtain ⟨t, ht, htid⟩ := hrefT _ hmem
        exact findType_isSome.mpr ⟨t, ht, htid⟩
      cases hft : db.findType tid with
      | none => rw [hft] at htex; simp at htex
      | some t =>
        have hfa : (db.findAssignment pid tid).isSome = true := findAssignment_isSome.mpr hmem
        unfold PokemonService.addType PokemonService.findById
        simp [hfb, hft, hfa, bind, Except.bind]
        rfl
  · intro hyes htyes hmem hcnt
    obtain ⟨p, hp, hpid⟩ := hyes
    cases hfb : db.findPokemonById pid with
    | none =>
      exact absurd (List.find?_eq_none.mp hfb p hp) (by simp [hpid])
    | some q =>
      cases hft : db.findType tid with
      | none =>
        have := findType_isSome.mpr htyes
        rw [hft] at this
        simp at this
      | some t =>
        have hfa : (db.findAssignment pid tid).isSome = false := by
          rw [Bool.eq_false_iff]
          intro hs
          exact hmem (findAssignment_isSome.mp hs)
        unfold PokemonService.addType PokemonService.findById
        simp [hfb, hft, hfa, hcnt, bind, Except.bind]
        rfl

/-- Witness for C6 at a concrete store. -/
theorem C6_addType_errors_witness :
    WF seedDB2 ∧
    (((∀ p ∈ seedDB2.pokemons, p.id ≠ 1) →
        errKind? (PokemonService.addType seedDB2 1 3) = some .notFound) ∧
      ((∃ p ∈ seedDB2.pokemons, p.id = 1) → (∀ t ∈ seedDB2.types, t.id ≠ 3) →
        errKind? (PokemonService.addType seedDB2 1 3) = some .notFound) ∧
      ((∃ p ∈ seedDB2.pokemons, p.id = 1) →
        (⟨1, 3⟩ : PokemonTypeRow) ∈ seedDB2.pokemonTypes →
        errKind? (PokemonService.addType seedDB2 1 3) = some .conflict) ∧
      ((∃ p ∈ seedDB2.pokemons, p.id = 1) → (∃ t ∈ seedDB2.types, t.id = 3) →
        (⟨1, 3⟩ : PokemonTypeRow) ∉ seedDB2.pokemonTypes → seedDB2.countTypes 1 = 2 →
        errKind? (PokemonService.addType seedDB2 1 3) = some .invariantViolation)) :=
  ⟨by decide, C6_addType_errors seedDB2 1 3 (by decide)⟩

/-- C7: `removeType` on an entity with exactly one assignment fails with
`InvariantViolation` and leaves the assignment set intact. -/
theorem C7_removeType_single (db : DB) (pid tid : Nat)
    (hpid : ∃ p ∈ db.pokemons, p.id = pid)
    (hcnt : db.countTypes pid = 1) :
    PokemonService.removeType db pid tid = .error .minTypes ∧
    errKind? (PokemonService.removeType db pid tid) = some .invariantViolation ∧
    runOp db (.removeType pid tid) = db ∧
    (runOp db (.removeType pid tid)).assignmentsFor pid = db.assignmentsFor pid := by
  obtain ⟨p, hp, hpidq⟩ := hpid
  have hmain : PokemonService.removeType db pid tid = .error .minTypes := by
    cases hfb : db.findPokemonById pid with
    | none =>
      exact absurd (List.find?_eq_none.mp hfb p hp) (by simp [hpidq])
    | some q =>
      unfold PokemonService.removeType PokemonService.findById
      simp [hfb, hcnt, bind, Except.bind]
  refine ⟨hmain, by rw [hmain]; rfl, by simp [runOp, hmain], by simp [runOp, hmain]⟩

/-- Witness for C7 at a concrete store. -/
theorem C7_removeType_single_witness :
    (∃ p ∈ seedDB1.pokemons, p.id = 1) ∧ seedDB1.countTypes 1 = 1 ∧
    (PokemonService.removeType seedDB1 1 1 = .error .minTypes ∧
      errKind? (PokemonService.removeType seedDB1 1 1) = some .invariantViolation ∧
      runOp seedDB1 (.removeType 1 1) = seedDB1 ∧
      (runOp seedDB1 (.removeType 1 1)).assignmentsFor 1 = seedDB1.assignmentsFor 1) :=
  ⟨by decide, by decide, C7_removeType_single seedDB1 1 1 (by decide) (by decide)⟩

/-- C10: `removeType` on an entity holding 2 assignments, with a label id
the entity does not carry, passes the count precondition and then fails
with the storage layer's record-not-found error from deleting a
non-existent record — an unanticipated `internal` failure, not one of the
four typed kinds. -/
theorem C10_removeType_unassigned (db : DB) (pid tid : Nat)
    (hpid : ∃ p ∈ db.pokemons, p.id = pid)
    (hcnt : db.countTypes pid = 2)
    (hmem : (⟨pid, tid⟩ : PokemonTypeRow) ∉ db.pokemonTypes) :
    PokemonService.removeType db pid tid = .error .recordNotFound ∧
    errKind? (PokemonService.removeType db pid tid) = some .internal ∧
    errKind? (PokemonService.removeType db pid tid) ≠ some .notFound ∧
    errKind? (PokemonService.removeType db pid tid) ≠ some .conflict ∧
    errKind? (PokemonService.removeType db pid tid) ≠ some .invariantViolation ∧
    errKind? (PokemonService.removeType db pid tid) ≠ some .validationFailure := by
  obtain ⟨p, hp, hpidq⟩ := hpid
  have hfa : (db.findAssignment pid tid).isSome = false := by
    rw [Bool.eq_false_iff]
    intro hs
    exact hmem (findAssignment_isSome.mp hs)
  have hmain : PokemonService.removeType db pid tid = .error .recordNotFound := by
    cases hfb : db.findPokemonById pid with
    | none =>
      exact absurd (List.find?_eq_none.mp hfb p hp) (by simp [hpidq])
    | some q =>
      unfold PokemonService.removeType PokemonService.findById DB.deleteAssignment
      simp [hfb, hcnt, hfa, bind, Except.bind, pure, Except.pure]
  rw [hmain]
  exact ⟨rfl, rfl, by simp [errKind?, Err.kind], by simp [errKind?, Err.kind],
    by simp [errKind?, Err.kind], by simp [errKind?, Err.kind]⟩

/-- Witness for C10 at a concrete store. -/
theorem C10_removeType_unassigned_witness :
    (∃ p ∈ seedDB2.pokemons, p.id = 1) ∧ seedDB2.countTypes 1 = 2 ∧
    (⟨1, 99⟩ : PokemonTypeRow) ∉ seedDB2.pokemonTypes ∧
    (PokemonService.removeType seedDB2 1 99 = .error .recordNotFound ∧
      errKind? (PokemonService.removeType seedDB2 1 99) = some .internal ∧
      errKind? (PokemonService.removeType seedDB2 1 99) ≠ some .notFound ∧
      errKind? (PokemonService.removeType seedDB2 1 99) ≠ some .conflict ∧
      errKind? (PokemonService.removeType seedDB2 1 99) ≠ some .invariantViolation ∧
      errKind? (PokemonService.removeType seedDB2 1 99) ≠ some .validationFailure) :=
  ⟨by decide, by decide, by decide,
    C10_removeType_unassigned seedDB2 1 99 (by decide) (by decide) (by decide)⟩

theorem findById_error {db : DB} {id : Nat} {e : Err}
    (h : PokemonService.findById db id = .error e) : e = .pokemonNotFound := by
  unfold PokemonService.findById at h
  split at h
  · injection h with h1
    exact h1.symm
  · exact absurd h (by simp)

theorem findById_of_exists {db : DB} {id : Nat}
    (h : ∃ p ∈ db.pokemons, p.id = id) :
    ∃ q, PokemonService.findById db id = .ok q ∧ q ∈ db.pokemons ∧ q.id = id := by
  obtain ⟨p, hp, hpid⟩ := h
  cases hfb : db.findPokemonById id with
  | none => exact absurd (List.find?_eq_none.mp hfb p hp) (by simp [hpid])
  | some q =>
    have hq := findPokemonById_eq_some hfb
    refine ⟨q, ?_, hq.1, hq.2⟩
    unfold PokemonService.findById
    rw [hfb]

theorem insertAssignment_error {db : DB} {pid tid : Nat} {e : Err}
    (h : db.insertAssignment pid tid = .error e) : e = .uniqueConstraint := by
  unfold DB.insertAssignment at h
  split at h
  · injection h with h1
    exact h1.symm
  · exact absurd h (by simp)

theorem DBupdatePokemon_error {db : DB} {id : Nat} {data : UpdatePokemonInput} {e : Err}
    (h : PokemonService.DBupdatePokemon db id data = .error e) :
    e = .recordNotFound ∨ e = .uniqueConstraint := by
  unfold PokemonService.DBupdatePokemon at h
  split at h
  · injection h with h1
    exact .inl h1.symm
  · dsimp only at h
    split at h
    · injection h with h1
      exact .inr h1.symm
    · exact absurd h (by simp)

theorem updateTx_error_not_conflict {db : DB} {id : Nat} {data : UpdatePokemonInput} {e : Err}
    (h : PokemonService.updateTx db id data = .error e) : e.kind ≠ ErrKind.conflict := by
  unfold PokemonService.updateTx at h
  simp only [bind, Except.bind, pure, Except.pure] at h
  split at h
  next e' he' =>
    injection h with h1
    rcases DBupdatePokemon_error he' with h2 | h2 <;> rw [← h1, h2] <;> simp [Err.kind]
  next pr hupd =>
  split at h
  case isTrue hguard =>
    try dsimp only at h
    split at h
    next t heq =>
      split at h
      · injection h with h1
        rw [← h1]
        simp [Err.kind]
      next hc2 =>
      split at h
      next e2 hins =>
        injection h with h1
        rw [← h1, insertAssignment_error hins]
        simp [Err.kind]
      next db3 hins =>
      split at h
      next s2 heq2 =>
        split at h
        · injection h with h1
          rw [← h1]
          simp [Err.kind]
        next hc3 =>
        split at h
        next e3 hins2 =>
          injection h with h1
          rw [← h1, insertAssignment_error hins2]
          simp [Err.kind]
        next db4 hins2 =>
          exact absurd h (by simp)
      next heq2 =>
        exact absurd h (by simp)
    next heq =>
      split at h
      next s2 heq2 =>
        split at h
        · injection h with h1
          rw [← h1]
          simp [Err.kind]
        next hc3 =>
        split at h
        next e3 hins2 =>
          injection h with h1
          rw [← h1, insertAssignment_error hins2]
          simp [Err.kind]
        next db4 hins2 =>
          exact absurd h (by simp)
      next heq2 =>
        exact absurd h (by simp)
  case isFalse hguard =>
    exact absurd h (by simp)

/-- The only `Conflict`-kind failure `update` can produce is the
duplicate-name pre-check, and it implies a different row owns the name. -/
theorem update_conflict_inv {db : DB} {id : Nat} {data : UpdatePokemonInput} {e : Err}
    (h : PokemonService.update db id data = .error e) (hk : e.kind = ErrKind.conflict) :
    ∃ q ∈ db.pokemons, q.name = data.name.getD "" ∧ q.id ≠ id := by
  unfold PokemonService.update at h
  simp only [bind, Except.bind, pure, Except.pure] at h
  split at h
  next e' he' =>
    injection h with h1
    rw [← h1, findById_error he'] at hk
    simp [Err.kind] at hk
  next a ha =>
  split at h
  case isTrue htr =>
    split at h
    next existing hex =>
      split at h
      case isTrue hneq =>
        refine ⟨existing, List.mem_of_find?_eq_some hex, ?_, ?_⟩
        · have := List.find?_some hex
          simpa using this
        · simpa using hneq
      case isFalse hneq =>
        try dsimp only at h
        split at h
        next e'' htx =>
          injection h with h1
          rw [← h1] at hk
          exact absurd hk (updateTx_error_not_conflict htx)
        next pr htx =>
        obtain ⟨p1, db4⟩ := pr
        split at h
        next e''' hfid =>
          injection h with h1
          rw [← h1, findById_error hfid] at hk
          simp [Err.kind] at hk
        next hyd hfid =>
          exact absurd h (by simp)
    next hnone =>
      try dsimp only at h
      split at h
      next e'' htx =>
        injection h with h1
        rw [← h1] at hk
        exact absurd hk (updateTx_error_not_conflict htx)
      next pr htx =>
      obtain ⟨p1, db4⟩ := pr
      split at h
      next e''' hfid =>
        injection h with h1
        rw [← h1, findById_error hfid] at hk
        simp [Err.kind] at hk
      next hyd hfid =>
        exact absurd h (by simp)
  case isFalse htr =>
    try dsimp only at h
    split at h
    next e'' htx =>
      injection h with h1
      rw [← h1] at hk
      exact absurd hk (updateTx_error_not_conflict htx)
    next pr htx =>
    obtain ⟨p1, db4⟩ := pr
    split at h
    next e''' hfid =>
      injection h with h1
      rw [← h1, findById_error hfid] at hk
      simp [Err.kind] at hk
    next hyd hfid =>
      exact absurd h (by simp)

theorem DBupdatePokemon_ok_of {db : DB} {id : Nat} {data : UpdatePokemonInput} {p0 : Pokemon}
    (hfb : db.findPokemonById id = some p0)
    (hany : ∀ q ∈ db.pokemons, q.id ≠ id →
      q.name ≠ (PokemonService.applyUpdate p0 data).name) :
    PokemonService.DBupdatePokemon db id data =
      .ok (PokemonService.applyUpdate p0 data,
        { db with pokemons :=
          db.pokemons.map (fun q => if q.id == id then PokemonService.applyUpdate q data else q) }) := by
  have hcond : (db.pokemons.any
      (fun q => q.name == (PokemonService.applyUpdate p0 data).name && !(q.id == id))) = false := by
    rw [List.any_eq_false]
    intro q hq
    by_cases hqi : q.id = id
    · simp [hqi]
    · have := hany q hq hqi
      simp [this]
  unfold PokemonService.DBupdatePokemon
  rw [hfb]
  simp [hcond]

theorem findById_error_no_row {db : DB} {id : Nat} {e : Err}
    (h : PokemonService.findById db id = .error e) : ∀ p ∈ db.pokemons, p.id ≠ id := by
  unfold PokemonService.findById at h
  split at h
  next hfb =>
    intro p hp hpid
    have := List.find?_eq_none.mp hfb p hp
    simp [hpid] at this
  next q hq =>
    exact absurd h (by simp)

theorem update_own_name_ok {db : DB} {p : Pokemon}
    (hwf : WF db) (hp : p ∈ db.pokemons) :
    isOk (PokemonService.update db p.id { name := some p.name }) = true := by
  obtain ⟨hids, hnames, -, -, -, -, -⟩ := hwf
  have hnameinj := List.inj_on_of_nodup_map hnames
  cases hfb : db.findPokemonById p.id with
  | none => exact absurd (List.find?_eq_none.mp hfb p hp) (by simp)
  | some p0 =>
  have he1 : PokemonService.findById db p.id = .ok p0 := by
    unfold PokemonService.findById
    rw [hfb]
  obtain ⟨hp0mem, hp0id⟩ := findPokemonById_eq_some hfb
  have hanyname : ∀ q ∈ db.pokemons, q.id ≠ p.id →
      q.name ≠ (PokemonService.applyUpdate p0 { name := some p.name }).name := by
    intro q hq hqi hqn
    have hn' : (PokemonService.applyUpdate p0 { name := some p.name }).name = p.name := rfl
    rw [hn'] at hqn
    exact hqi (congrArg Pokemon.id (hnameinj hq hp hqn))
  have e3 := DBupdatePokemon_ok_of hfb hanyname
  have hdb1mem : PokemonService.applyUpdate p0 { name := some p.name } ∈
      db.pokemons.map (fun q =>
        if q.id == p.id then PokemonService.applyUpdate q { name := some p.name } else q) := by
    have hq0 : (fun q =>
        if q.id == p.id then PokemonService.applyUpdate q { name := some p.name } else q) p0
        = PokemonService.applyUpdate p0 { name := some p.name } := by
      simp [hp0id]
    rw [← hq0]
    exact List.mem_map_of_mem _ hp0mem
  by_cases hpe : p.name = ""
  · have hst : strTruthy (some p.name) = false := by simp [strTruthy, hpe]
    unfold PokemonService.update PokemonService.updateTx
    simp only [bind, Except.bind, pure, Except.pure, he1, hst, e3, Bool.false_eq_true,
      if_false, Option.isSome_none, Option.isSome_some, Bool.or_self, Option.getD_some]
    split
    next e heq =>
      exact absurd rfl (findById_error_no_row heq _ hdb1mem)
    next v heq =>
      rfl
  · have hst : strTruthy (some p.name) = true := by simp [strTruthy, hpe]
    cases hfn : db.findPokemonByName p.name with
    | none =>
      unfold PokemonService.update PokemonService.updateTx
      simp only [bind, Except.bind, pure, Except.pure, he1, hst, hfn, Option.getD_some,
        if_true, Bool.false_eq_true, if_false, Option.isSome_none, Bool.or_self, e3]
      split
      next e heq =>
        exact absurd rfl (findById_error_no_row heq _ hdb1mem)
      next v heq =>
        rfl
    | some q' =>
      have hq'name : q'.name = p.name := by
        have := List.find?_some hfn
        simpa using this
      have hq'p : q' = p := hnameinj (List.mem_of_find?_eq_some hfn) hp hq'name
      subst hq'p
      unfold PokemonService.update PokemonService.updateTx
      simp only [bind, Except.bind, pure, Except.pure, he1, hst, hfn, Option.getD_some,
        if_true, beq_self_eq_true, Bool.not_true, Bool.false_eq_true, if_false,
        Option.isSome_none, Bool.or_self, e3]
      split
      next e heq =>
        exact absurd rfl (findById_error_no_row heq _ hdb1mem)
      next v heq =>
        rfl

theorem update_name_conflict {db : DB} {id : Nat} {data : UpdatePokemonInput} {n : String}
    (hwf : WF db) (hex : ∃ p ∈ db.pokemons, p.id = id)
    (hname : data.name = some n) (hne : n ≠ "")
    (hconf : ∃ q ∈ db.pokemons, q.name = n ∧ q.id ≠ id) :
    PokemonService.update db id data = .error (.nameExists n) := by
  obtain ⟨hids, hnames, -, -, -, -, -⟩ := hwf
  have hnameinj := List.inj_on_of_nodup_map hnames
  obtain ⟨q, hq, hqn, hqid⟩ := hconf
  obtain ⟨q0, he1, hq0mem, hq0id⟩ := findById_of_exists hex
  cases hfn : db.findPokemonByName n with
  | none =>
    exact absurd (List.find?_eq_none.mp hfn q hq) (by simp [hqn])
  | some q' =>
    have hq'name : q'.name = n := by
      have := List.find?_some hfn
      simpa using this
    have hq'q : q' = q := hnameinj (List.mem_of_find?_eq_some hfn) hq (hq'name.trans hqn.symm)
    subst hq'q
    have hst : strTruthy data.name = true := by simp [hname, strTruthy, hne]
    unfold PokemonService.update
    rw [hname]
    simp [he1, strTruthy, hne, hfn, hqid, bind, Except.bind, pure, Except.pure]

/-- C8: for an existing entity and an update input supplying a (non-empty)
name, `update` fails with `Conflict` exactly when a different entity owns
that name; re-supplying an entity's own current name succeeds. -/
theorem C8_update_name_conflict (db : DB) (id : Nat) (data : UpdatePokemonInput) (n : String)
    (hwf : WF db) (hex : ∃ p ∈ db.pokemons, p.id = id)
    (hname : data.name = some n) (hne : n ≠ "") :
    (errKind? (PokemonService.update db id data) = some .conflict ↔
      ∃ q ∈ db.pokemons, q.name = n ∧ q.id ≠ id) ∧
    (∀ p ∈ db.pokemons, isOk (PokemonService.update db p.id { name := some p.name }) = true) := by
  constructor
  · constructor
    · intro hk
      rcases hu : PokemonService.update db id data with e | pr
      · rw [hu] at hk
        simp only [errKind?, Option.some.injEq] at hk
        have := update_conflict_inv hu hk
        rw [hname] at this
        simpa using this
      · rw [hu] at hk
        simp [errKind?] at hk
    · intro hconf
      rw [update_name_conflict hwf hex hname hne hconf]
      rfl
  · intro p hp
    exact update_own_name_ok hwf hp

/-- Witness for C8 at a concrete store and input. -/
theorem C8_update_name_conflict_witness :
    WF seedDB3 ∧ (∃ p ∈ seedDB3.pokemons, p.id = 1) ∧
    (({ name := some "bulba" } : UpdatePokemonInput).name = some "bulba") ∧
    ("bulba" ≠ "") ∧
    ((errKind? (PokemonService.update seedDB3 1 { name := some "bulba" }) = some .conflict ↔
        ∃ q ∈ seedDB3.pokemons, q.name = "bulba" ∧ q.id ≠ 1) ∧
      (∀ p ∈ seedDB3.pokemons,
        isOk (PokemonService.update seedDB3 p.id { name := some p.name }) = true)) :=
  ⟨by decide, by decide, by decide, by decide,
    C8_update_name_conflict seedDB3 1 { name := some "bulba" } "bulba"
      (by decide) (by decide) (by decide) (by decide)⟩

theorem updateTx_primary_only {db : DB} {id t : Nat} {data : UpdatePokemonInput}
    {r : Pokemon} {db' : DB}
    (hprim : data.primaryTypeId = some t) (hsec : data.secondaryTypeId = none)
    (h : PokemonService.updateTx db id data = .ok (r, db')) :
    db'.pokemonTypes = ⟨id, t⟩ :: db.pokemonTypes.filter (fun a => !(a.pokemonId == id)) := by
  unfold PokemonService.updateTx at h
  simp only [bind, Except.bind, pure, Except.pure] at h
  split at h
  · exact absurd h (by simp)
  next pr hupd =>
  obtain ⟨p1, db1⟩ := pr
  obtain ⟨p0, hp0, hp1, hcheck, hdb1⟩ := DBupdatePokemon_ok hupd
  rw [hprim, hsec] at h
  simp only [Option.isSome_some, Option.isSome_none, Bool.or_false, if_true] at h
  try dsimp only at h
  split at h
  · exact absurd h (by simp)
  next hc2 =>
  split at h
  · exact absurd h (by simp)
  next db3 hins =>
  obtain ⟨hnm, hdb3⟩ := insertAssignment_ok hins
  injection h with h1
  injection h1 with hr hdb'
  subst hdb3
  subst hdb'
  subst hdb1
  rfl

theorem update_ok_db' {db : DB} {id : Nat} {data : UpdatePokemonInput}
    {r : Pokemon} {db' : DB}
    (h : PokemonService.update db id data = .ok (r, db')) :
    ∃ r2, PokemonService.updateTx db id data = .ok (r2, db') := by
  unfold PokemonService.update at h
  simp only [bind, Except.bind, pure, Except.pure] at h
  split at h
  · exact absurd h (by simp)
  next a ha =>
  split at h
  case isTrue htr =>
    split at h
    next existing hex =>
      split at h
      · exact absurd h (by simp)
      next hown =>
        try dsimp only at h
        split at h
        · exact absurd h (by simp)
        next pr htx =>
        obtain ⟨p1, db4⟩ := pr
        split at h
        · exact absurd h (by simp)
        next hyd hfid =>
        injection h with h1
        injection h1 with hr hdb'
        subst hdb'
        exact ⟨p1, htx⟩
    next hnone =>
      try dsimp only at h
      split at h
      · exact absurd h (by simp)
      next pr htx =>
      obtain ⟨p1, db4⟩ := pr
      split at h
      · exact absurd h (by simp)
      next hyd hfid =>
      injection h with h1
      injection h1 with hr hdb'
      subst hdb'
      exact ⟨p1, htx⟩
  case isFalse htr =>
    try dsimp only at h
    split at h
    · exact absurd h (by simp)
    next pr htx =>
    obtain ⟨p1, db4⟩ := pr
    split at h
    · exact absurd h (by simp)
    next hyd hfid =>
    injection h with h1
    injection h1 with hr hdb'
    subst hdb'
    exact ⟨p1, htx⟩

theorem update_primary_missing {db : DB} {id t : Nat} {data : UpdatePokemonInput}
    (hwf : WF db) (hex : ∃ p ∈ db.pokemons, p.id = id)
    (hprim : data.primaryTypeId = some t)
    (hnoc : ¬∃ q ∈ db.pokemons, q.name = data.name.getD "" ∧ q.id ≠ id)
    (hty : ∀ ty ∈ db.types, ty.id ≠ t) :
    PokemonService.update db id data = .error .primaryTypeNotFound := by
  obtain ⟨hids, hnames, -, -, -, -, -⟩ := hwf
  have hnameinj := List.inj_on_of_nodup_map hnames
  obtain ⟨p, hp, hpid⟩ := hex
  cases hfb : db.findPokemonById id with
  | none => exact absurd (List.find?_eq_none.mp hfb p hp) (by simp [hpid])
  | some p0 =>
  have he1 : PokemonService.findById db id = .ok p0 := by
    unfold PokemonService.findById
    rw [hfb]
  obtain ⟨hp0mem, hp0id⟩ := findPokemonById_eq_some hfb
  have hany : ∀ q ∈ db.pokemons, q.id ≠ id →
      q.name ≠ (PokemonService.applyUpdate p0 data).name := by
    intro q hq hqi hqn
    rcases hdn : data.name with _ | n
    · have hn' : (PokemonService.applyUpdate p0 data).name = p0.name := by
        simp [PokemonService.applyUpdate, hdn]
      rw [hn'] at hqn
      apply hqi
      rw [congrArg Pokemon.id (hnameinj hq hp0mem hqn), hp0id]
    · have hn' : (PokemonService.applyUpdate p0 data).name = n := by
        simp [PokemonService.applyUpdate, hdn]
      rw [hn'] at hqn
      exact hnoc ⟨q, hq, by simp [hdn, hqn], hqi⟩
  have e3 := DBupdatePokemon_ok_of hfb hany
  have hftnone : db.types.find? (fun ty => ty.id == t) = none := by
    rw [List.find?_eq_none]
    intro ty hty2
    simp [hty ty hty2]
  rcases hdn : data.name with _ | n
  · have hst : strTruthy data.name = false := by simp [strTruthy, hdn]
    unfold PokemonService.update PokemonService.updateTx
    simp [he1, hst, e3, hprim, bind, Except.bind, pure, Except.pure,
      DB.deleteAssignmentsFor, DB.findType, hftnone]
  · by_cases hn : n = ""
    · have hst : strTruthy data.name = false := by simp [strTruthy, hdn, hn]
      unfold PokemonService.update PokemonService.updateTx
      simp [he1, hst, e3, hprim, bind, Except.bind, pure, Except.pure,
        DB.deleteAssignmentsFor, DB.findType, hftnone]
    · have hst : strTruthy data.name = true := by simp [strTruthy, hdn, hn]
      cases hfn : db.findPokemonByName n with
      | none =>
        unfold PokemonService.update PokemonService.updateTx
        simp [he1, hst, hdn, hfn, e3, hprim, bind, Except.bind, pure, Except.pure,
          DB.deleteAssignmentsFor, DB.findType, hftnone]
      | some ex =>
        have hexid : ex.id = id := by
          by_contra hcon
          refine hnoc ⟨ex, List.mem_of_find?_eq_some hfn, ?_, hcon⟩
          rw [hdn]
          have := List.find?_some hfn
          simpa using this
        unfold PokemonService.update PokemonService.updateTx
        simp [he1, hst, hdn, hfn, hexid, e3, hprim, bind, Except.bind, pure, Except.pure,
          DB.deleteAssignmentsFor, DB.findType, hftnone]

/-- C4: for an existing entity, an update supplying only a primary label
reference replaces the whole assignment set: on success the entity's
assignments are exactly the single supplied label (any previous secondary
assignment is gone); and if the supplied reference does not resolve, the
transaction fails with `NotFound` and the store — in particular the
pre-update assignment set — is unchanged. -/
theorem C4_update_primary_only (db : DB) (id t : Nat) (data : UpdatePokemonInput)
    (hwf : WF db) (hex : ∃ p ∈ db.pokemons, p.id = id)
    (hprim : data.primaryTypeId = some t) (hsec : data.secondaryTypeId = none)
    (hnoc : ¬∃ q ∈ db.pokemons, q.name = data.name.getD "" ∧ q.id ≠ id) :
    (∀ r db', PokemonService.update db id data = .ok (r, db') →
      db'.assignmentsFor id = [⟨id, t⟩]) ∧
    ((∀ ty ∈ db.types, ty.id ≠ t) →
      PokemonService.update db id data = .error .primaryTypeNotFound ∧
      errKind? (PokemonService.update db id data) = some .notFound ∧
      runOp db (.update id data) = db ∧
      (runOp db (.update id data)).assignmentsFor id = db.assignmentsFor id) := by
  constructor
  · intro r db' h
    obtain ⟨r2, htx⟩ := update_ok_db' h
    have hpairs := updateTx_primary_only hprim hsec htx
    have htail : (db.pokemonTypes.filter (fun a => !(a.pokemonId == id))).filter
        (fun a => a.pokemonId == id) = [] := by
      rw [List.filter_eq_nil_iff]
      intro a ha
      have := List.of_mem_filter ha
      simpa using this
    simp [DB.assignmentsFor, hpairs, List.filter_cons, htail]
  · intro hty
    have hmain := update_primary_missing hwf hex hprim hnoc hty
    exact ⟨hmain, by rw [hmain]; rfl, by simp [runOp, hmain], by simp [runOp, hmain]⟩

/-- Witness for C4 at a concrete store and input. -/
theorem C4_update_primary_only_witness :
    WF seedDB2 ∧ (∃ p ∈ seedDB2.pokemons, p.id = 1) ∧
    (({ primaryTypeId := some 3 } : UpdatePokemonInput).primaryTypeId = some 3) ∧
    (({ primaryTypeId := some 3 } : UpdatePokemonInput).secondaryTypeId = none) ∧
    ¬(∃ q ∈ seedDB2.pokemons,
        q.name = (({ primaryTypeId := some 3 } : UpdatePokemonInput).name.getD "") ∧ q.id ≠ 1) ∧
    ((∀ r db', PokemonService.update seedDB2 1 { primaryTypeId := some 3 } = .ok (r, db') →
        db'.assignmentsFor 1 = [⟨1, 3⟩]) ∧
      ((∀ ty ∈ seedDB2.types, ty.id ≠ 3) →
        PokemonService.update seedDB2 1 { primaryTypeId := some 3 }
            = .error .primaryTypeNotFound ∧
        errKind? (PokemonService.update seedDB2 1 { primaryTypeId := some 3 })
            = some .notFound ∧
        runOp seedDB2 (.update 1 { primaryTypeId := some 3 }) = seedDB2 ∧
        (runOp seedDB2 (.update 1 { primaryTypeId := some 3 })).assignmentsFor 1
            = seedDB2.assignmentsFor 1)) :=
  ⟨by decide, by decide, by decide, by decide, by decide,
    C4_update_primary_only seedDB2 1 3 { primaryTypeId := some 3 }
      (by decide) (by decide) (by decide) (by decide) (by decide)⟩

/-- `(total + limit - 1) / limit` is the ceiling of `total / limit`:
characterized by its two bounding inequalities. -/
theorem ceilDiv_spec {total limit : Nat} (hl : 1 ≤ limit) :
    total ≤ ceilDiv total limit * limit ∧ ceilDiv total limit * limit < total + limit := by
  have h0 : 0 < limit := hl
  have heq : ceilDiv total limit = total ⌈/⌉ limit := by
    rw [Nat.ceilDiv_eq_add_pred_div]
    rfl
  constructor
  · rw [heq]
    have h1 := (ceilDiv_le_iff_le_mul h0).mp (le_refl (total ⌈/⌉ limit))
    rw [mul_comm]
    exact h1
  · rw [heq]
    rcases Nat.eq_zero_or_pos (total ⌈/⌉ limit) with h1 | h1
    · rw [h1]
      omega
    · obtain ⟨n, hn⟩ : ∃ n, total ⌈/⌉ limit = n + 1 := ⟨_, (Nat.succ_pred_eq_of_pos h1).symm⟩
      have h3 : limit * n < total := by
        by_contra hc
        have h4 := (ceilDiv_le_iff_le_mul h0).mpr (Nat.le_of_not_lt hc)
        rw [hn] at h4
        omega
      rw [hn, Nat.succ_mul, mul_comm limit n] at *
      exact Nat.add_lt_add_right h3 limit

/-- C5: `findMany` returns at most `limit` rows, ordered by entity id
ascending, exactly the slice at offset `(page-1)*limit` of the sorted
filtered rows; the metadata has the query's page and limit, the full
matching count, `totalPages` the ceiling of `total/limit`, `hasNext` iff
`page*limit < total`, `hasPrev` iff `page > 1`; and any page past the last
one yields an empty data array (not an error) with the same metadata. -/
theorem C5_findMany_pagination (db : DB) (q : PokemonQuery)
    (hpage : 1 ≤ q.page) (hlimit : 1 ≤ q.limit) :
    (PokemonService.findMany db q).data.length ≤ q.limit ∧
    List.Pairwise (fun a b : Pokemon => a.id ≤ b.id) (PokemonService.findMany db q).data ∧
    (PokemonService.findMany db q).data =
      (((db.pokemons.filter (matchesQuery db q)).mergeSort
        (fun a b => a.id ≤ b.id)).drop ((q.page - 1) * q.limit)).take q.limit ∧
    (PokemonService.findMany db q).pagination.page = q.page ∧
    (PokemonService.findMany db q).pagination.limit = q.limit ∧
    (PokemonService.findMany db q).pagination.total
      = (db.pokemons.filter (matchesQuery db q)).length ∧
    ((PokemonService.findMany db q).pagination.total
        ≤ (PokemonService.findMany db q).pagination.totalPages * q.limit ∧
      (PokemonService.findMany db q).pagination.totalPages * q.limit
        < (PokemonService.findMany db q).pagination.total + q.limit) ∧
    ((PokemonService.findMany db q).pagination.hasNext = true ↔
      q.page * q.limit < (PokemonService.findMany db q).pagination.total) ∧
    ((PokemonService.findMany db q).pagination.hasPrev = true ↔ 1 < q.page) ∧
    ((PokemonService.findMany db q).pagination.totalPages < q.page →
      (PokemonService.findMany db q).data = []) := by
  have hdata : (PokemonService.findMany db q).data =
      (((db.pokemons.filter (matchesQuery db q)).mergeSort (fun a b => a.id ≤ b.id)).drop
        ((q.page - 1) * q.limit)).take q.limit := rfl
  have htotal : (PokemonService.findMany db q).pagination.total
      = (db.pokemons.filter (matchesQuery db q)).length := rfl
  have htp : (PokemonService.findMany db q).pagination.totalPages
      = ceilDiv (db.pokemons.filter (matchesQuery db q)).length q.limit := rfl
  have hnext : (PokemonService.findMany db q).pagination.hasNext
      = decide (q.page * q.limit < (db.pokemons.filter (matchesQuery db q)).length) := rfl
  have hprev : (PokemonService.findMany db q).pagination.hasPrev = decide (q.page > 1) := rfl
  have hs : List.Pairwise (fun a b : Pokemon => a.id ≤ b.id)
      ((db.pokemons.filter (matchesQuery db q)).mergeSort (fun a b => a.id ≤ b.id)) := by
    refine List.Pairwise.imp ?_
      (List.sorted_mergeSort ?_ ?_ (db.pokemons.filter (matchesQuery db q)))
    · intro a b h
      simpa using h
    · intro a b c h1 h2
      simp only [decide_eq_true_eq] at h1 h2 ⊢
      omega
    · intro a b
      simp only [Bool.or_eq_true, decide_eq_true_eq]
      omega
  refine ⟨?_, ?_, hdata, rfl, rfl, htotal, ?_, ?_, ?_, ?_⟩
  · rw [hdata]
    simp only [List.length_take]
    omega
  · rw [hdata]
    exact List.Pairwise.sublist
      ((List.take_sublist _ _).trans (List.drop_sublist _ _)) hs
  · rw [htp, htotal]
    exact ceilDiv_spec hlimit
  · rw [hnext, htotal]
    exact decide_eq_true_iff
  · rw [hprev]
    exact decide_eq_true_iff
  · intro hlt
    rw [htp] at hlt
    rw [hdata]
    have hlen : ((db.pokemons.filter (matchesQuery db q)).mergeSort
        (fun a b => a.id ≤ b.id)).length
        = (db.pokemons.filter (matchesQuery db q)).length := List.length_mergeSort _
    have h1 : (db.pokemons.filter (matchesQuery db q)).length
        ≤ ceilDiv (db.pokemons.filter (matchesQuery db q)).length q.limit * q.limit :=
      (ceilDiv_spec hlimit).1
    have h2 : ceilDiv (db.pokemons.filter (matchesQuery db q)).length q.limit ≤ q.page - 1 := by
      omega
    have hskip : (db.pokemons.filter (matchesQuery db q)).length ≤ (q.page - 1) * q.limit :=
      h1.trans (Nat.mul_le_mul_right _ h2)
    rw [List.drop_eq_nil_of_le (by rw [hlen]; exact hskip)]
    simp

/-- Witness for C5 at a concrete store and query (a page past the last). -/
theorem C5_findMany_pagination_witness :
    1 ≤ seedQuery.page ∧ 1 ≤ seedQuery.limit ∧
    ((PokemonService.findMany seedDB3 seedQuery).data.length ≤ seedQuery.limit ∧
      List.Pairwise (fun a b : Pokemon => a.id ≤ b.id)
        (PokemonService.findMany seedDB3 seedQuery).data ∧
      (PokemonService.findMany seedDB3 seedQuery).data =
        (((seedDB3.pokemons.filter (matchesQuery seedDB3 seedQuery)).mergeSort
          (fun a b => a.id ≤ b.id)).drop
            ((seedQuery.page - 1) * seedQuery.limit)).take seedQuery.limit ∧
      (PokemonService.findMany seedDB3 seedQuery).pagination.page = seedQuery.page ∧
      (PokemonService.findMany seedDB3 seedQuery).pagination.limit = seedQuery.limit ∧
      (PokemonService.findMany seedDB3 seedQuery).pagination.total
        = (seedDB3.pokemons.filter (matchesQuery seedDB3 seedQuery)).length ∧
      ((PokemonService.findMany seedDB3 seedQuery).pagination.total
          ≤ (PokemonService.findMany seedDB3 seedQuery).pagination.totalPages * seedQuery.limit ∧
        (PokemonService.findMany seedDB3 seedQuery).pagination.totalPages * seedQuery.limit
          < (PokemonService.findMany seedDB3 seedQuery).pagination.total + seedQuery.limit) ∧
      ((PokemonService.findMany seedDB3 seedQuery).pagination.hasNext = true ↔
        seedQuery.page * seedQuery.limit
          < (PokemonService.findMany seedDB3 seedQuery).pagination.total) ∧
      ((PokemonService.findMany seedDB3 seedQuery).pagination.hasPrev = true ↔
        1 < seedQuery.page) ∧
      ((PokemonService.findMany seedDB3 seedQuery).pagination.totalPages < seedQuery.page →
        (PokemonService.findMany seedDB3 seedQuery).data = [])) :=
  ⟨by decide, by decide, C5_findMany_pagination seedDB3 seedQuery (by decide) (by decide)⟩
